import Mathlib

/-!
# Journey of the Prairie King: the map subsystem (MapLoader)

A shallow embedding of `MapLoader.cpp` (with `MapLoader.hpp`, `Constants.hpp`) and
theorems about it.

Conventions of the embedding.
* A finite `float` value is the rational number it denotes. The float additions of
  `sf::Rect::intersects` round to the nearest float (`roundF32`), and the conversion of an
  unsigned coordinate to `float` in `load` rounds as well (`floatOfUnsigned`). The scaling
  of `loadCollision` by `MAP_SCALE` is kept in exact arithmetic.
* `unsigned int` values are naturals; every unsigned operation of the source is reduced
  modulo `2 ^ 32`.  `int` values are integers in `[-2^31, 2^31)`.
* Undefined behaviour of the C++ source (null pointer use, out-of-range vector access,
  division by zero, signed overflow) is an explicit `Fault` result, an exception that leaves a
  function is an explicit `Exception` result.
* Library code that the source calls (`std::getline`, `std::stoi`, `sf::Rect::intersects`,
  `sf::Clock`, tinyxml2) is modelled from the documented behaviour of those libraries.
-/

namespace PrairieKing

/-! ## Constants (Constants.hpp) -/

/-- GameConfig::MAP_SCALE, `constexpr float MAP_SCALE = 2.0f`. -/
def MAP_SCALE : ℚ := 2

/-- The modulus of `unsigned int` arithmetic. -/
def UINT_MOD : Nat := 2 ^ 32

/-- The smallest `int`. -/
def INT_MIN : Int := -(2 ^ 31)

/-- The largest `int`. -/
def INT_MAX : Int := 2 ^ 31 - 1

/-! ## Data model (MapLoader.hpp) -/

/-- The rectangle type sf::FloatRect: left, top, width, height, finite float values. -/
structure FloatRect where
  left : ℚ
  top : ℚ
  width : ℚ
  height : ℚ
deriving DecidableEq

/-- MapLoader::CollisionObject. -/
structure CollisionObject where
  rect : FloatRect
  type : String := ""
  nextArea : Bool := false
deriving DecidableEq

/-- A pair of unsigned values (sf::Vector2u). -/
structure Vector2 where
  x : Nat
  y : Nat
deriving DecidableEq, Repr

/-- The pair type sf::Vector2f as the loader uses it. Every float the loader stores in a
vertex is the conversion of an unsigned int, so its value is a natural number (at most
2 ^ 32); the field holds that value of the float. -/
structure Vector2f where
  x : Nat
  y : Nat
deriving DecidableEq, Repr

/-- The vertex type sf::Vertex, restricted to the two fields the loader writes. A default
vertex has position (0, 0) and texture coordinates (0, 0). -/
structure Vertex where
  position : Vector2f := ⟨0, 0⟩
  texCoords : Vector2f := ⟨0, 0⟩
deriving DecidableEq, Repr

/-- The debug overlay sf::RectangleShape: position and size. -/
structure RectangleShape where
  position : ℚ × ℚ
  size : ℚ × ℚ
deriving DecidableEq

/-- The state of a MapLoader object. `m_tileset` is the pixel size of the loaded texture,
a layer is its vertex buffer, `wallClock` is the time in microseconds since the clock was
last restarted. -/
structure MapLoader where
  m_tileset : Vector2 := ⟨0, 0⟩
  m_layers : List (List Vertex) := []
  m_layerVisibility : List Bool := []
  wallClock : Nat := 0
  m_collisionObjects : List CollisionObject := []
  m_collisionShapes : List RectangleShape := []
deriving DecidableEq

/-! ## Outcomes of a call -/

/-- Undefined behaviour the source can run into. -/
inductive Fault where
  | nullPointer
  | outOfRange
  | divideByZero
  | signedOverflow
deriving DecidableEq, Repr

/-- The exceptions std::stoi throws. -/
inductive Exception where
  | invalid_argument
  | out_of_range
deriving DecidableEq, Repr

/-- How a call of a bool-returning member function ends: it returns a value, an
exception leaves it, or it runs into undefined behaviour. -/
inductive Outcome where
  | returned (value : Bool)
  | threw (e : Exception)
  | undefined (f : Fault)
deriving DecidableEq, Repr

deriving instance DecidableEq for Except

/-! ## The description document (tinyxml2 view of a TMX file) -/

/-- A layer element: its name attribute (absent: null pointer) and its data child
(absent: null pointer) with the text of that child (no text: null pointer). -/
structure LayerElement where
  name : Option String
  data : Option (Option String)
deriving DecidableEq

/-- A property element: its name attribute and the value BoolAttribute reads. -/
structure PropertyElement where
  name : Option String
  value : Bool
deriving DecidableEq

/-- An object element: the values FloatAttribute reads, the optional type attribute and
the optional properties child with its property children. -/
structure ObjectElement where
  x : ℚ
  y : ℚ
  width : ℚ
  height : ℚ
  type : Option String := none
  properties : Option (List PropertyElement) := none
deriving DecidableEq

/-- An objectgroup element with its object children. -/
structure ObjectGroupElement where
  objects : List ObjectElement
deriving DecidableEq

/-- The map element: its layer children and its objectgroup children, in document
order. -/
structure MapElement where
  layers : List LayerElement := []
  objectGroups : List ObjectGroupElement := []
deriving DecidableEq

/-- A parsed document: its root map element, if it has one. -/
structure XMLDocument where
  map : Option MapElement
deriving DecidableEq

/-! ## Layer visibility and the wall animation -/

/-- MapLoader::toggleLayerVisibility. The element access `m_layerVisibility[lastLayerIndex]`
is in range whenever both vectors have the same length, which `load` maintains by pushing
to both; outside that invariant the write is modelled as leaving the vector unchanged. -/
def MapLoader.toggleLayerVisibility (self : MapLoader) : MapLoader :=
  if self.m_layers ≠ [] then
    let lastLayerIndex := self.m_layers.length - 1
    { self with
      m_layerVisibility :=
        self.m_layerVisibility.set lastLayerIndex
          (!(self.m_layerVisibility.getD lastLayerIndex false)) }
  else self

/-- Model of sf::Time::asMilliseconds of SFML 2: the microsecond count divided by 1000
and cast to a signed 32-bit integer. -/
def asMilliseconds (microseconds : Nat) : Int :=
  let m : Nat := (microseconds / 1000) % 2 ^ 32
  if m < 2 ^ 31 then (m : Int) else (m : Int) - 2 ^ 32

/-- The call `wallClock.restart()`: the elapsed time starts again at zero. -/
def MapLoader.restart (self : MapLoader) : MapLoader :=
  { self with wallClock := 0 }

/-- MapLoader::wallAnimation: `wallClock.getElapsedTime()` is the time since the last
restart. -/
def MapLoader.wallAnimation (self : MapLoader) : MapLoader :=
  if asMilliseconds self.wallClock ≥ 1000 then
    self.toggleLayerVisibility.restart
  else self

/-- Time passing between two frames: the clock advances by `dt` microseconds. -/
def MapLoader.elapse (self : MapLoader) (dt : Nat) : MapLoader :=
  { self with wallClock := self.wallClock + dt }

/-- One animation tick of the frame loop: `dt` microseconds pass, then main calls
wallAnimation. -/
def MapLoader.tick (self : MapLoader) (dt : Nat) : MapLoader :=
  (self.elapse dt).wallAnimation

/-- A sequence of animation ticks. -/
def MapLoader.ticks (self : MapLoader) : List Nat → MapLoader
  | [] => self
  | dt :: rest => (self.tick dt).ticks rest

/-- The number of ticks of a sequence in which wallAnimation takes its toggling branch. -/
def MapLoader.toggleCount (self : MapLoader) : List Nat → Nat
  | [] => 0
  | dt :: rest =>
    (if asMilliseconds (self.elapse dt).wallClock ≥ 1000 then 1 else 0) +
      (self.tick dt).toggleCount rest

/-- One thousand milliseconds in microseconds. -/
def SECOND : Nat := 1000 * 1000

/-- A loaded map with two (empty) layers, both visible, used as a concrete state. -/
def twoLayerMap : MapLoader :=
  { m_layers := [[], []], m_layerVisibility := [true, true] }

/-! ## Collision loading -/

/-- The rectangle loadCollision stores for an object: every attribute times the scale
(the program passes MAP_SCALE). -/
def collisionRect (scale : ℚ) (object : ObjectElement) : FloatRect :=
  ⟨object.x * scale, object.y * scale, object.width * scale, object.height * scale⟩

/-- The debug overlay loadCollision builds from a stored rectangle: every component
divided by the scale (the program passes MAP_SCALE). -/
def collisionShape (scale : ℚ) (rect : FloatRect) : RectangleShape :=
  ⟨(rect.left / scale, rect.top / scale), (rect.width / scale, rect.height / scale)⟩

/-- The loop over the property elements of an object: a property named nextArea sets
the flag (the last one wins); a property without a name attribute is a null pointer
handed to std::string. -/
def scanProperties (nextArea : Bool) : List PropertyElement → Except Fault Bool
  | [] => .ok nextArea
  | property :: rest =>
    match property.name with
    | none => .error .nullPointer
    | some name => scanProperties (if name = "nextArea" then property.value else nextArea) rest

/-- The type string of the collision object: the type attribute when the element has
one, the empty string otherwise. -/
def objectType (object : ObjectElement) : String :=
  match object.type with
  | some t => t
  | none => ""

/-- The nextArea flag of the collision object: false without a properties child,
otherwise the result of the loop over its property children. -/
def objectNextArea (object : ObjectElement) : Except Fault Bool :=
  match object.properties with
  | some properties => scanProperties false properties
  | none => .ok false

/-- The body of the object loop of loadCollision for one object element: the collision
object and its debug shape. -/
def loadObject (object : ObjectElement) : Except Fault (CollisionObject × RectangleShape) :=
  let rect := collisionRect MAP_SCALE object
  match objectNextArea object with
  | .error f => .error f
  | .ok nextArea =>
    .ok (⟨rect, objectType object, nextArea⟩, collisionShape MAP_SCALE rect)

/-- Specification side: every property element of the object has a name attribute, so
the loop over the properties meets no null pointer. -/
def ObjectElement.namedProperties (object : ObjectElement) : Prop :=
  ∀ properties, object.properties = some properties → ∀ p ∈ properties, p.name ≠ none

/-- Specification side: the debug shape of an object in source coordinates. -/
def sourceShape (object : ObjectElement) : RectangleShape :=
  ⟨(object.x, object.y), (object.width, object.height)⟩

/-- Specification side: the collision object stored for an object element whose
properties all have a name: the rectangle scaled by MAP_SCALE, the type, the flag. -/
def storedObject (object : ObjectElement) : CollisionObject :=
  ⟨collisionRect MAP_SCALE object, objectType object,
    match objectNextArea object with
    | .ok nextArea => nextArea
    | .error _ => false⟩

/-- The object loop of loadCollision: on a fault the state reached so far is kept. -/
def loadObjects (self : MapLoader) : List ObjectElement → Option Fault × MapLoader
  | [] => (none, self)
  | object :: rest =>
    match loadObject object with
    | .error f => (some f, self)
    | .ok (collisionObject, shape) =>
      loadObjects
        { self with
          m_collisionShapes := self.m_collisionShapes ++ [shape]
          m_collisionObjects := self.m_collisionObjects ++ [collisionObject] } rest

/-- The objectgroup loop of loadCollision. -/
def loadObjectGroups (self : MapLoader) : List ObjectGroupElement → Option Fault × MapLoader
  | [] => (none, self)
  | objectGroup :: rest =>
    match loadObjects self objectGroup.objects with
    | (some f, self1) => (some f, self1)
    | (none, self1) => loadObjectGroups self1 rest

/-- MapLoader::loadCollision. `docFile` is what `doc.LoadFile` produced: none when the
file could not be loaded. -/
def MapLoader.loadCollision (self : MapLoader) (docFile : Option XMLDocument) :
    Outcome × MapLoader :=
  match docFile with
  | none => (.returned false, self)
  | some doc =>
    match doc.map with
    | none => (.undefined .nullPointer, self)
    | some map =>
      match loadObjectGroups self map.objectGroups with
      | (some f, self1) => (.undefined f, self1)
      | (none, self1) => (.returned true, self1)

/-! ## Parsing the tile grid -/

/-- The C function isspace in the "C" locale: space, and the characters 9 to 13 (tab,
line feed, vertical tab, form feed, carriage return). -/
def isspace (c : Char) : Bool :=
  c.toNat = 32 || (9 ≤ c.toNat && c.toNat ≤ 13)

/-- The C function isdigit: the characters 0 to 9. -/
def isdigit (c : Char) : Bool :=
  48 ≤ c.toNat && c.toNat ≤ 57

/-- The value of a decimal digit character. -/
def digitValue (c : Char) : Nat := c.toNat - 48

/-- The optional sign strtol accepts in front of the digits: whether it is a minus, and
the text after it. -/
def splitSign : List Char → Bool × List Char
  | [] => (false, [])
  | c :: rest =>
    if c = '-' then (true, rest)
    else if c = '+' then (false, rest)
    else (false, c :: rest)

/-- The number a sequence of decimal digits denotes. -/
def decimalValue (digits : List Char) : Nat :=
  digits.foldl (fun acc c => acc * 10 + digitValue c) 0

/-- Model of std::stoi(token) of the C++ standard library (base 10, no position
argument), which converts with strtol: leading white space is skipped, an optional sign
and the longest run of decimal digits are read, and whatever follows the digits is
ignored. Without any digit no conversion is performed and std::invalid_argument is
thrown; a value outside the range of int gives std::out_of_range. -/
def stoi (str : List Char) : Except Exception Int :=
  let signed := splitSign (str.dropWhile isspace)
  let digits := signed.2.takeWhile isdigit
  if digits = [] then .error .invalid_argument
  else
    let value : Int := if signed.1 then -(decimalValue digits : Int) else decimalValue digits
    if value < INT_MIN ∨ INT_MAX < value then .error .out_of_range
    else .ok value

/-- Model of one call std::getline(ss, token, ',') on a stream with the characters `ss`
left: on an exhausted stream nothing is extracted and the call fails (the loop
condition is false); otherwise the token is everything up to the first comma or the end
of the stream, and the comma is consumed. A stream that reached its end while
extracting has no characters left, so the next call fails as well. -/
def getline (ss : List Char) : Option (List Char × List Char) :=
  match ss with
  | [] => none
  | _ :: _ => some (ss.takeWhile (fun c => c ≠ ','), (ss.dropWhile (fun c => c ≠ ',')).drop 1)

/-- The tokens that the successive calls of getline in the condition of the while loop
extract, until a call fails (see getlineTokens_eq for the relation with getline). -/
def getlineTokens : List Char → List (List Char)
  | [] => []
  | c :: rest =>
    if c = ',' then [] :: getlineTokens rest
    else
      match getlineTokens rest with
      | [] => [[c]]
      | token :: tokens => (c :: token) :: tokens

/-- The body of the while loop of parseCSV, run over the extracted tokens: an exception
of stoi leaves the function. -/
def parseCSVLoop : List (List Char) → List Int → Except Exception (List Int)
  | [], tileIDs => .ok tileIDs
  | token :: rest, tileIDs =>
    match stoi token with
    | .error e => .error e
    | .ok id => parseCSVLoop rest (tileIDs ++ [id])

/-- MapLoader::parseCSV. -/
def parseCSV (csvData : String) : Except Exception (List Int) :=
  parseCSVLoop (getlineTokens csvData.toList) []

/-- Specification side: texts joined by commas. -/
def joinComma : List (List Char) → List Char
  | [] => []
  | [token] => token
  | token :: rest => token ++ ',' :: joinComma rest

/-- Specification side: the decimal rendering of an integer, as `toString` prints it. -/
def renderInt (x : Int) : List Char := (toString x).toList

/-- Specification side: a token that is a valid integer as a whole: an optional sign
followed by one or more decimal digits and nothing else. -/
def validInteger (token : List Char) : Bool :=
  let signed := splitSign token
  signed.2 ≠ [] && signed.2.all isdigit

/-- Specification side: the token starts with the integer `v` the way strtol reads one:
white space, an optional sign, a non-empty run of digits that ends at the first
character that is not a digit; whatever follows is not looked at. -/
def StartsWithInteger (token : List Char) (v : Int) : Prop :=
  ∃ ws sign digits rest, token = ws ++ (sign ++ (digits ++ rest)) ∧
    (∀ c ∈ ws, isspace c = true) ∧
    (sign = [] ∨ sign = ['+'] ∨ sign = ['-']) ∧
    digits ≠ [] ∧ (∀ c ∈ digits, isdigit c = true) ∧
    (∀ c ∈ rest.head?, isdigit c = false) ∧
    v = if sign = ['-'] then -(decimalValue digits : Int) else decimalValue digits

/-! ## Building the layers (MapLoader::load) -/

/-- The four writes through `quad[0]` to `quad[3]`, where `quad` points at the vertex
with index `base` of the vertex array: both fields of each of the four vertices are
assigned. An index outside the array is undefined behaviour. -/
def writeQuad (layerVertices : List Vertex) (base : Nat) (q0 q1 q2 q3 : Vertex) :
    Except Fault (List Vertex) :=
  if base + 3 < layerVertices.length then
    .ok ((((layerVertices.set base q0).set (base + 1) q1).set (base + 2) q2).set (base + 3) q3)
  else .error .outOfRange

/-- The number of low bits of an unsigned value that do not fit into the 24-bit
significand of a float: 0 below 2 ^ 24, and one more for every further doubling. The
fuel 8 covers every unsigned int (below 2 ^ 32). -/
def excessBits : Nat → Nat → Nat
  | 0, _ => 0
  | fuel + 1, n => if n < 2 ^ 24 then 0 else excessBits fuel (n / 2) + 1

/-- The conversion of an unsigned int to float (the argument conversions of the
sf::Vector2f constructor): the value is rounded to 24 significant bits, to the nearest
float, a tie going to the even significand. The result is given as the natural number
the float denotes. -/
def floatOfUnsigned (n : Nat) : Nat :=
  let s := excessBits 8 n
  let q := n / 2 ^ s
  let r := n % 2 ^ s
  let q1 := if 2 * r < 2 ^ s then q else if 2 ^ s < 2 * r then q + 1
    else if q % 2 = 0 then q else q + 1
  q1 * 2 ^ s

/-- The call sf::Vector2f(x, y) on two unsigned values: both are converted to float. -/
def Vector2f.ofUnsigned (x y : Nat) : Vector2f :=
  ⟨floatOfUnsigned x, floatOfUnsigned y⟩

/-- The body of the inner loop of `load` (lines 72 to 94) for the cell (i, j). The
variables i, j, width and the tile size are unsigned, so the index `i + j * width`, the
vertex index `(i + j * width) * 4` and the coordinates are computed modulo 2 ^ 32, and
each coordinate is then converted to float; `tilesetWidth` is `m_tileset.getSize().x`. -/
def loadCell (tileIDs : List Int) (tilesetWidth : Nat) (tileSize : Vector2) (width : Nat)
    (i j : Nat) (layerVertices : List Vertex) : Except Fault (List Vertex) :=
  let index := (i + j * width) % UINT_MOD
  match tileIDs[index]? with
  | none => .error .outOfRange
  | some id =>
    if id - 1 < INT_MIN then .error .signedOverflow
    else
      let tileNumber : Int := id - 1
      if tileNumber < 0 then .ok layerVertices
      else if tileSize.x = 0 then .error .divideByZero
      else if tilesetWidth / tileSize.x = 0 then .error .divideByZero
      else
        let tu := tileNumber.toNat % (tilesetWidth / tileSize.x)
        let tv := tileNumber.toNat / (tilesetWidth / tileSize.x)
        writeQuad layerVertices (index * 4 % UINT_MOD)
          ⟨.ofUnsigned (i * tileSize.x % UINT_MOD) (j * tileSize.y % UINT_MOD),
            .ofUnsigned (tu * tileSize.x % UINT_MOD) (tv * tileSize.y % UINT_MOD)⟩
          ⟨.ofUnsigned ((i + 1) * tileSize.x % UINT_MOD) (j * tileSize.y % UINT_MOD),
            .ofUnsigned ((tu + 1) * tileSize.x % UINT_MOD) (tv * tileSize.y % UINT_MOD)⟩
          ⟨.ofUnsigned ((i + 1) * tileSize.x % UINT_MOD) ((j + 1) * tileSize.y % UINT_MOD),
            .ofUnsigned ((tu + 1) * tileSize.x % UINT_MOD) ((tv + 1) * tileSize.y % UINT_MOD)⟩
          ⟨.ofUnsigned (i * tileSize.x % UINT_MOD) ((j + 1) * tileSize.y % UINT_MOD),
            .ofUnsigned (tu * tileSize.x % UINT_MOD) ((tv + 1) * tileSize.y % UINT_MOD)⟩

/-- The vertex array of one layer (lines 66 to 96 of `load`): `width * height * 4`
default vertices, then the loop over i (outer) and j (inner). -/
def buildLayer (tileIDs : List Int) (tilesetWidth : Nat) (tileSize : Vector2)
    (width height : Nat) : Except Fault (List Vertex) :=
  (List.range width).foldlM
    (fun layerVertices i =>
      (List.range height).foldlM
        (fun layerVertices j => loadCell tileIDs tilesetWidth tileSize width i j layerVertices)
        layerVertices)
    (List.replicate (width * height * 4 % UINT_MOD) {})

/-- The while loop of `load` over the layer elements. When an exception or undefined
behaviour ends the call, the state is the one reached at that point. -/
def loadLayers (self : MapLoader) (tileSize : Vector2) (width height : Nat) :
    List LayerElement → Outcome × MapLoader
  | [] => (.returned true, self)
  | layer :: rest =>
    match layer.name with
    | none => (.undefined .nullPointer, self)
    | some _ =>
      match layer.data with
      | none => (.undefined .nullPointer, self)
      | some none => (.undefined .nullPointer, self)
      | some (some csvData) =>
        match parseCSV csvData with
        | .error e => (.threw e, self)
        | .ok tileIDs =>
          match buildLayer tileIDs self.m_tileset.x tileSize width height with
          | .error f => (.undefined f, self)
          | .ok layerVertices =>
            loadLayers
              { self with
                m_layers := self.m_layers ++ [layerVertices]
                m_layerVisibility := self.m_layerVisibility ++ [true] }
              tileSize width height rest

/-- MapLoader::load. `tilesetImage` is what `m_tileset.loadFromFile` produced (the size
of the texture, none on failure) and `tmxFile` what `doc.LoadFile` produced (none on
failure). -/
def MapLoader.load (self : MapLoader) (tmxFile : Option XMLDocument)
    (tilesetImage : Option Vector2) (tileSize : Vector2) (width height : Nat) :
    Outcome × MapLoader :=
  match tilesetImage with
  | none => (.returned false, self)
  | some size =>
    match tmxFile with
    | none => (.returned false, { self with m_tileset := size })
    | some doc =>
      match doc.map with
      | none => (.undefined .nullPointer, { self with m_tileset := size })
      | some map => loadLayers { self with m_tileset := size } tileSize width height map.layers

/-- Specification side: the quad with index k of a quad buffer, its four vertices. -/
def quadAt (buffer : List Vertex) (k : Nat) : List Vertex :=
  (buffer.drop (4 * k)).take 4

/-- Specification side: the quad the layer builder is to produce for cell (i, j), with
exact (unbounded) arithmetic: four default vertices for an empty cell, otherwise the
corners of the cell and of the sheet cell (column, row), in the order top left, top
right, bottom right, bottom left. -/
def expectedQuad (tileIDs : List Int) (sheetColumns : Nat) (tileSize : Vector2) (width : Nat)
    (i j : Nat) : List Vertex :=
  let tileNumber : Int := tileIDs.getD (i + j * width) 0 - 1
  if tileNumber < 0 then [{}, {}, {}, {}]
  else
    let column := tileNumber.toNat % sheetColumns
    let row := tileNumber.toNat / sheetColumns
    [⟨⟨i * tileSize.x, j * tileSize.y⟩, ⟨column * tileSize.x, row * tileSize.y⟩⟩,
      ⟨⟨(i + 1) * tileSize.x, j * tileSize.y⟩, ⟨(column + 1) * tileSize.x, row * tileSize.y⟩⟩,
      ⟨⟨(i + 1) * tileSize.x, (j + 1) * tileSize.y⟩,
        ⟨(column + 1) * tileSize.x, (row + 1) * tileSize.y⟩⟩,
      ⟨⟨i * tileSize.x, (j + 1) * tileSize.y⟩, ⟨column * tileSize.x, (row + 1) * tileSize.y⟩⟩]

/-- Specification side: the buffer has width × height quads and the quad of every cell
is the expected one. -/
def LayerSpec (tileIDs : List Int) (sheetColumns : Nat) (tileSize : Vector2)
    (width height : Nat) (buffer : List Vertex) : Prop :=
  buffer.length = 4 * (width * height) ∧
    ∀ i < width, ∀ j < height,
      quadAt buffer (i + j * width) = expectedQuad tileIDs sheetColumns tileSize width i j

instance (tileIDs : List Int) (sheetColumns : Nat) (tileSize : Vector2)
    (width height : Nat) (buffer : List Vertex) :
    Decidable (LayerSpec tileIDs sheetColumns tileSize width height buffer) := by
  unfold LayerSpec
  infer_instance

/-- The quad the loop body of `load` leaves for cell (i, j), with the arithmetic of the
code: four default vertices for an empty cell, otherwise the unsigned products modulo
2 ^ 32, converted to float. -/
def storedQuad (tileIDs : List Int) (tilesetWidth : Nat) (tileSize : Vector2) (width : Nat)
    (i j : Nat) : List Vertex :=
  let tileNumber : Int := tileIDs.getD (i + j * width) 0 - 1
  if tileNumber < 0 then [{}, {}, {}, {}]
  else
    let tu := tileNumber.toNat % (tilesetWidth / tileSize.x)
    let tv := tileNumber.toNat / (tilesetWidth / tileSize.x)
    [⟨.ofUnsigned (i * tileSize.x % UINT_MOD) (j * tileSize.y % UINT_MOD),
        .ofUnsigned (tu * tileSize.x % UINT_MOD) (tv * tileSize.y % UINT_MOD)⟩,
      ⟨.ofUnsigned ((i + 1) * tileSize.x % UINT_MOD) (j * tileSize.y % UINT_MOD),
        .ofUnsigned ((tu + 1) * tileSize.x % UINT_MOD) (tv * tileSize.y % UINT_MOD)⟩,
      ⟨.ofUnsigned ((i + 1) * tileSize.x % UINT_MOD) ((j + 1) * tileSize.y % UINT_MOD),
        .ofUnsigned ((tu + 1) * tileSize.x % UINT_MOD) ((tv + 1) * tileSize.y % UINT_MOD)⟩,
      ⟨.ofUnsigned (i * tileSize.x % UINT_MOD) ((j + 1) * tileSize.y % UINT_MOD),
        .ofUnsigned (tu * tileSize.x % UINT_MOD) ((tv + 1) * tileSize.y % UINT_MOD)⟩]

/-- Vertex r of the stored quad of cell (i, j). -/
def storedVertex (tileIDs : List Int) (tilesetWidth : Nat) (tileSize : Vector2) (width : Nat)
    (i j r : Nat) : Vertex :=
  (storedQuad tileIDs tilesetWidth tileSize width i j).getD r {}

/-- The inputs on which the loops of the layer builder run through without undefined
behaviour: there are at least width × height tile IDs, the vertex count
width × height × 4 is below 2 ^ 32, none of the first width × height tile IDs is the
smallest int, and the sheet has at least one column when one of them is positive (a
tile that is not empty). -/
def LayerLoads (tileIDs : List Int) (tilesetWidth : Nat) (tileSize : Vector2)
    (width height : Nat) : Prop :=
  width * height ≤ tileIDs.length ∧
  width * height * 4 < UINT_MOD ∧
  ∀ k < width * height, ∀ id, tileIDs[k]? = some id →
    INT_MIN < id ∧ (0 < id → 0 < tilesetWidth / tileSize.x)

/-- Loop invariant of the layer builder: the buffer has its full length, the quads of
the cells marked done are the stored ones and all other quads are still default. -/
def BuiltUpTo (tileIDs : List Int) (tilesetWidth : Nat) (tileSize : Vector2)
    (width height : Nat) (done : Nat → Nat → Bool) (buffer : List Vertex) : Prop :=
  buffer.length = 4 * (width * height) ∧
    ∀ i < width, ∀ j < height, ∀ r < 4,
      buffer[4 * (i + j * width) + r]? =
        some (if done i j then storedVertex tileIDs tilesetWidth tileSize width i j r else {})

/-- The largest natural number up to which every natural number is a float. -/
def FLOAT_EXACT : Nat := 2 ^ 24

/-- Specification side: the natural number fits an unsigned int and its conversion to
float is exact (every number up to 2 ^ 24 is such, see floatExact_of_le). -/
def FloatExact (c : Nat) : Prop := c < UINT_MOD ∧ floatOfUnsigned c = c

instance (c : Nat) : Decidable (FloatExact c) := by
  unfold FloatExact
  infer_instance

/-! ## Float arithmetic -/

/-- Left edge of the region a rectangle covers. -/
def FloatRect.minX (r : FloatRect) : ℚ := min r.left (r.left + r.width)

/-- Right edge of the region a rectangle covers. -/
def FloatRect.maxX (r : FloatRect) : ℚ := max r.left (r.left + r.width)

/-- Top edge of the region a rectangle covers. -/
def FloatRect.minY (r : FloatRect) : ℚ := min r.top (r.top + r.height)

/-- Bottom edge of the region a rectangle covers. -/
def FloatRect.maxY (r : FloatRect) : ℚ := max r.top (r.top + r.height)

/-- Specification side: the area two rectangles share, the product of the lengths of
the overlaps of their horizontal and vertical extents. -/
def overlapArea (a b : FloatRect) : ℚ :=
  max 0 (min a.maxX b.maxX - max a.minX b.minX) *
    max 0 (min a.maxY b.maxY - max a.minY b.minY)

/-- Specification side: the point (x, y) lies strictly inside the rectangle. -/
def FloatRect.strictlyInside (r : FloatRect) (x y : ℚ) : Prop :=
  r.minX < x ∧ x < r.maxX ∧ r.minY < y ∧ y < r.maxY

/-! ## Theorems -/

/-! ### Float rounding -/

theorem overlapArea_pos_iff (a b : FloatRect) :
    0 < overlapArea a b ↔
      max a.minX b.minX < min a.maxX b.maxX ∧ max a.minY b.minY < min a.maxY b.maxY := by
  unfold overlapArea
  constructor
  · intro h
    have h1 : 0 ≤ max 0 (min a.maxX b.maxX - max a.minX b.minX) := le_max_left _ _
    have h2 : 0 ≤ max 0 (min a.maxY b.maxY - max a.minY b.minY) := le_max_left _ _
    have hx : 0 < max 0 (min a.maxX b.maxX - max a.minX b.minX) := by
      rcases h1.lt_or_eq with h1 | h1
      · exact h1
      · rw [← h1] at h; simp at h
    have hy : 0 < max 0 (min a.maxY b.maxY - max a.minY b.minY) := by
      rcases h2.lt_or_eq with h2 | h2
      · exact h2
      · rw [← h2] at h; simp at h
    rw [lt_max_iff] at hx hy
    constructor
    · rcases hx with hx | hx
      · exact absurd hx (lt_irrefl _)
      · linarith
    · rcases hy with hy | hy
      · exact absurd hy (lt_irrefl _)
      · linarith
  · rintro ⟨hx, hy⟩
    apply mul_pos
    · exact lt_max_of_lt_right (by linarith)
    · exact lt_max_of_lt_right (by linarith)

/-- Positive shared area is the same as a common strictly interior point. -/
theorem overlapArea_pos_iff_common_point (a b : FloatRect) :
    0 < overlapArea a b ↔ ∃ x y, a.strictlyInside x y ∧ b.strictlyInside x y := by
  rw [overlapArea_pos_iff]
  constructor
  · rintro ⟨hx, hy⟩
    refine ⟨(max a.minX b.minX + min a.maxX b.maxX) / 2,
      (max a.minY b.minY + min a.maxY b.maxY) / 2, ?_, ?_⟩
    · have h1 := le_max_left a.minX b.minX
      have h2 := min_le_left a.maxX b.maxX
      have h3 := le_max_left a.minY b.minY
      have h4 := min_le_left a.maxY b.maxY
      refine ⟨?_, ?_, ?_, ?_⟩ <;> linarith
    · have h1 := le_max_right a.minX b.minX
      have h2 := min_le_right a.maxX b.maxX
      have h3 := le_max_right a.minY b.minY
      have h4 := min_le_right a.maxY b.maxY
      refine ⟨?_, ?_, ?_, ?_⟩ <;> linarith
  · rintro ⟨x, y, ⟨a1, a2, a3, a4⟩, ⟨b1, b2, b3, b4⟩⟩
    constructor
    · exact lt_trans (max_lt a1 b1) (lt_min a2 b2)
    · exact lt_trans (max_lt a3 b3) (lt_min a4 b4)

theorem scanProperties_ok (properties : List PropertyElement) : ∀ nextArea : Bool,
    (∀ p ∈ properties, p.name ≠ none) → ∃ b, scanProperties nextArea properties = .ok b := by
  induction properties with
  | nil => intro nextArea _; exact ⟨nextArea, rfl⟩
  | cons p rest ih =>
    intro nextArea h
    unfold scanProperties
    rcases hn : p.name with _ | name
    · exact absurd hn (h p (List.mem_cons_self _ _))
    · exact ih _ (fun q hq => h q (List.mem_cons_of_mem _ hq))

theorem objectNextArea_ok (object : ObjectElement) (h : object.namedProperties) :
    ∃ b, objectNextArea object = .ok b := by
  unfold objectNextArea
  rcases hp : object.properties with _ | properties
  · exact ⟨false, rfl⟩
  · exact scanProperties_ok properties false (h properties hp)

theorem shape_round_trip (s : ℚ) (object : ObjectElement) (hs : s ≠ 0) :
    collisionShape s (collisionRect s object) = sourceShape object := by
  simp [collisionShape, collisionRect, sourceShape, hs]

theorem loadObject_named (object : ObjectElement) (h : object.namedProperties) :
    loadObject object = .ok (storedObject object, sourceShape object) := by
  obtain ⟨b, hb⟩ := objectNextArea_ok object h
  unfold loadObject storedObject
  simp only [hb]
  rw [shape_round_trip MAP_SCALE object (by norm_num [MAP_SCALE])]

theorem loadObjects_named (objects : List ObjectElement) : ∀ self : MapLoader,
    (∀ o ∈ objects, o.namedProperties) →
      loadObjects self objects =
        (none,
          { self with
            m_collisionShapes := self.m_collisionShapes ++ objects.map sourceShape
            m_collisionObjects := self.m_collisionObjects ++ objects.map storedObject }) := by
  induction objects with
  | nil => intro self _; simp [loadObjects]
  | cons o rest ih =>
    intro self h
    unfold loadObjects
    simp only [loadObject_named o (h o (List.mem_cons_self _ _))]
    rw [ih _ (fun p hp => h p (List.mem_cons_of_mem _ hp))]
    simp

theorem loadObjectGroups_named (groups : List ObjectGroupElement) : ∀ self : MapLoader,
    (∀ g ∈ groups, ∀ o ∈ g.objects, o.namedProperties) →
      loadObjectGroups self groups =
        (none,
          { self with
            m_collisionShapes :=
              self.m_collisionShapes ++ (groups.map (fun g => g.objects)).flatten.map sourceShape
            m_collisionObjects :=
              self.m_collisionObjects ++
                (groups.map (fun g => g.objects)).flatten.map storedObject }) := by
  induction groups with
  | nil => intro self _; simp [loadObjectGroups]
  | cons g rest ih =>
    intro self h
    unfold loadObjectGroups
    simp only [loadObjects_named g.objects self (h g (List.mem_cons_self _ _))]
    rw [ih _ (fun k hk => h k (List.mem_cons_of_mem _ hk))]
    simp

theorem loadCollision_named (self : MapLoader) (map : MapElement)
    (h : ∀ g ∈ map.objectGroups, ∀ o ∈ g.objects, o.namedProperties) :
    self.loadCollision (some ⟨some map⟩) =
      (.returned true,
        { self with
          m_collisionShapes :=
            self.m_collisionShapes ++
              (map.objectGroups.map (fun g => g.objects)).flatten.map sourceShape
          m_collisionObjects :=
            self.m_collisionObjects ++
              (map.objectGroups.map (fun g => g.objects)).flatten.map storedObject }) := by
  unfold MapLoader.loadCollision
  simp only [loadObjectGroups_named map.objectGroups self h]

/-- C8: multiplying every component of a source rectangle by a non-zero scale, as
loadCollision does when it stores the collision rectangle, and dividing by the scale, as
it does for the debug shape, gives back the source rectangle. With MAP_SCALE this is
what loadCollision builds: for every object it stores the rectangle scaled by MAP_SCALE
and a debug shape with the position and size of the source. -/
theorem C8_scale_round_trip (s : ℚ) (object : ObjectElement) (hs : s ≠ 0) :
    collisionShape s (collisionRect s object) =
        ⟨(object.x, object.y), (object.width, object.height)⟩ ∧
      loadObject object =
        (match objectNextArea object with
          | .error f => .error f
          | .ok nextArea =>
            .ok (⟨⟨object.x * MAP_SCALE, object.y * MAP_SCALE, object.width * MAP_SCALE,
                  object.height * MAP_SCALE⟩, objectType object, nextArea⟩,
              ⟨(object.x, object.y), (object.width, object.height)⟩)) ∧
      ∀ (self : MapLoader) (map : MapElement),
        (∀ g ∈ map.objectGroups, ∀ o ∈ g.objects, o.namedProperties) →
          (self.loadCollision (some ⟨some map⟩)).1 = .returned true ∧
          (self.loadCollision (some ⟨some map⟩)).2.m_collisionShapes =
            self.m_collisionShapes ++
              (map.objectGroups.map (fun g => g.objects)).flatten.map
                (fun o => ⟨(o.x, o.y), (o.width, o.height)⟩) ∧
          (self.loadCollision (some ⟨some map⟩)).2.m_collisionObjects.map (fun c => c.rect) =
            self.m_collisionObjects.map (fun c => c.rect) ++
              (map.objectGroups.map (fun g => g.objects)).flatten.map
                (fun o => ⟨o.x * MAP_SCALE, o.y * MAP_SCALE, o.width * MAP_SCALE,
                  o.height * MAP_SCALE⟩) := by
  refine ⟨shape_round_trip s object hs, ?_, ?_⟩
  · simp only [loadObject, shape_round_trip MAP_SCALE object (by norm_num [MAP_SCALE])]
    rfl
  · intro self map h
    rw [loadCollision_named self map h]
    refine ⟨rfl, rfl, ?_⟩
    simp only [List.map_append, List.map_map]
    rfl

theorem C8_scale_round_trip_witness :
    collisionShape 2 (collisionRect 2 { x := 3, y := 5 / 2, width := 16, height := 7 }) =
        ⟨(3, 5 / 2), (16, 7)⟩ ∧
      loadObject { x := 3, y := 5 / 2, width := 16, height := 7 } =
        .ok (⟨⟨3 * MAP_SCALE, 5 / 2 * MAP_SCALE, 16 * MAP_SCALE, 7 * MAP_SCALE⟩, "", false⟩,
          ⟨(3, 5 / 2), (16, 7)⟩) ∧
      (({} : MapLoader).loadCollision (some ⟨some { objectGroups :=
          [⟨[{ x := 3, y := 5 / 2, width := 16, height := 7 }]⟩] }⟩)).2.m_collisionShapes =
        [⟨(3, 5 / 2), (16, 7)⟩] :=
  ⟨(C8_scale_round_trip 2 { x := 3, y := 5 / 2, width := 16, height := 7 } (by norm_num)).1,
    (C8_scale_round_trip 2 { x := 3, y := 5 / 2, width := 16, height := 7 } (by norm_num)).2.1,
    ((C8_scale_round_trip 2 { x := 3, y := 5 / 2, width := 16, height := 7 }
      (by norm_num)).2.2 {} { objectGroups :=
        [⟨[{ x := 3, y := 5 / 2, width := 16, height := 7 }]⟩] } (by
          intro g hg o ho properties hp
          simp only [List.mem_singleton] at hg
          subst hg
          simp only [List.mem_singleton] at ho
          subst ho
          cases hp)).2.1⟩

/-! ### Layer visibility -/

theorem toggle_toggle (self : MapLoader) :
    self.toggleLayerVisibility.toggleLayerVisibility = self := by
  obtain ⟨ts, layers, vis, clock, objs, shapes⟩ := self
  unfold MapLoader.toggleLayerVisibility
  by_cases h : layers = []
  · simp [h]
  · simp only [ne_eq, h, not_false_eq_true, ↓reduceIte, List.set_set, MapLoader.mk.injEq,
      true_and, and_true]
    by_cases hk : layers.length - 1 < vis.length
    · have h1 : (vis.set (layers.length - 1) (!vis.getD (layers.length - 1) false)).getD
          (layers.length - 1) false = !vis.getD (layers.length - 1) false := by
        simp [List.getD_eq_getElem?_getD, List.getElem?_set, hk]
      rw [h1]
      apply List.ext_getElem?
      intro k
      by_cases hkk : layers.length - 1 = k
      · subst hkk
        simp [List.getElem?_set, hk, List.getD_eq_getElem?_getD]
      · simp [List.getElem?_set, hkk]
    · rw [List.set_eq_of_length_le (by omega)]

/-- C9: toggleLayerVisibility negates the visibility flag of the last layer and changes
nothing else: the other flags, the number of flags, the layers, the tileset, the clock
and the collision data stay; without layers nothing changes; twice is the identity. -/
theorem C9_toggle_frame (self : MapLoader)
    (hinv : self.m_layers.length = self.m_layerVisibility.length) :
    self.toggleLayerVisibility.m_layers = self.m_layers ∧
    self.toggleLayerVisibility.m_tileset = self.m_tileset ∧
    self.toggleLayerVisibility.wallClock = self.wallClock ∧
    self.toggleLayerVisibility.m_collisionObjects = self.m_collisionObjects ∧
    self.toggleLayerVisibility.m_collisionShapes = self.m_collisionShapes ∧
    self.toggleLayerVisibility.m_layerVisibility.length = self.m_layerVisibility.length ∧
    (∀ k, k ≠ self.m_layers.length - 1 →
      self.toggleLayerVisibility.m_layerVisibility[k]? = self.m_layerVisibility[k]?) ∧
    (self.m_layers ≠ [] → ∃ v, self.m_layerVisibility[self.m_layers.length - 1]? = some v ∧
      self.toggleLayerVisibility.m_layerVisibility[self.m_layers.length - 1]? = some (!v)) ∧
    (self.m_layers = [] → self.toggleLayerVisibility = self) ∧
    self.toggleLayerVisibility.toggleLayerVisibility = self := by
  refine ⟨?_, ?_, ?_, ?_, ?_, ?_, ?_, ?_, ?_, toggle_toggle self⟩
  all_goals unfold MapLoader.toggleLayerVisibility
  all_goals by_cases h : self.m_layers = []
  all_goals simp only [ne_eq, h, not_true_eq_false, not_false_eq_true, ↓reduceIte,
    List.length_set, implies_true, forall_true_left, false_implies]
  · intro k hk
    rw [List.getElem?_set]
    simp [Ne.symm hk]
  · have hlen : 0 < self.m_layers.length := List.length_pos.mpr h
    have hk : self.m_layers.length - 1 < self.m_layerVisibility.length := by omega
    refine ⟨self.m_layerVisibility[self.m_layers.length - 1], ?_, ?_⟩
    · simp [hk]
    · simp [List.getElem?_set, hk, List.getD_eq_getElem?_getD]

theorem C9_toggle_frame_witness :
    twoLayerMap.m_layers.length = twoLayerMap.m_layerVisibility.length ∧
      (twoLayerMap.m_layers ≠ [] →
        ∃ v, twoLayerMap.m_layerVisibility[twoLayerMap.m_layers.length - 1]? = some v ∧
          twoLayerMap.toggleLayerVisibility.m_layerVisibility[
            twoLayerMap.m_layers.length - 1]? = some (!v)) ∧
      twoLayerMap.toggleLayerVisibility.toggleLayerVisibility = twoLayerMap :=
  ⟨rfl, (C9_toggle_frame twoLayerMap rfl).2.2.2.2.2.2.2.1,
    (C9_toggle_frame twoLayerMap rfl).2.2.2.2.2.2.2.2.2⟩

/-! ### Wall animation -/

theorem asMilliseconds_lt {c : Nat} (h : c < SECOND) : asMilliseconds c < 1000 := by
  unfold SECOND at h
  unfold asMilliseconds
  norm_num
  split <;> omega

theorem asMilliseconds_second : asMilliseconds SECOND ≥ 1000 := by
  unfold SECOND asMilliseconds
  norm_num

theorem elapse_zero (self : MapLoader) : self.elapse 0 = self := rfl

theorem toggle_elapse_restart (self : MapLoader) (d : Nat) :
    (self.elapse d).toggleLayerVisibility.restart = self.toggleLayerVisibility.restart := by
  unfold MapLoader.elapse MapLoader.toggleLayerVisibility MapLoader.restart
  by_cases h : self.m_layers = [] <;> simp [h]

theorem toggle_restart (self : MapLoader) :
    self.restart.toggleLayerVisibility = self.toggleLayerVisibility.restart := by
  unfold MapLoader.toggleLayerVisibility MapLoader.restart
  by_cases h : self.m_layers = [] <;> simp [h]

theorem restart_of_zero (self : MapLoader) (h : self.wallClock = 0) : self.restart = self := by
  obtain ⟨ts, layers, vis, clock, objs, shapes⟩ := self
  simp only at h
  subst h
  rfl

theorem wallAnimation_idle (self : MapLoader) (h : asMilliseconds self.wallClock < 1000) :
    self.wallAnimation = self := by
  unfold MapLoader.wallAnimation
  rw [if_neg (by omega)]

theorem wallAnimation_fire (self : MapLoader) (h : 1000 ≤ asMilliseconds self.wallClock) :
    self.wallAnimation = self.toggleLayerVisibility.restart := by
  unfold MapLoader.wallAnimation
  rw [if_pos (by omega)]

theorem asMilliseconds_of_lt {c : Nat} (h : c < 2 ^ 31 * 1000) :
    asMilliseconds c = ((c / 1000 : Nat) : Int) := by
  unfold asMilliseconds
  norm_num
  split <;> omega

/-- C10 as stated fails for a very large elapsed time: after 2 ^ 31 ms (2147483648000
microseconds) asMilliseconds, a signed 32-bit value, is negative, and the call neither
toggles nor restarts the clock. -/
theorem C10_counterexample_int32_wrap :
    1000 ≤ 2147483648000 / 1000 ∧
      asMilliseconds 2147483648000 = -2147483648 ∧
      ({ twoLayerMap with wallClock := 2147483648000 } : MapLoader).wallAnimation =
        { twoLayerMap with wallClock := 2147483648000 } := by
  have h : asMilliseconds 2147483648000 = -2147483648 := by
    unfold asMilliseconds
    norm_num
  refine ⟨by norm_num, h, ?_⟩
  unfold MapLoader.wallAnimation
  rw [if_neg]
  simp only [h]
  norm_num

/-- C10 (amended): for every elapsed time below 2 ^ 31 ms observed by one wallAnimation
call: below 1000 ms the state is unchanged (flags and timer); from 1000 ms on the last
layer is toggled exactly once and the timer is reset to zero, so the excess over
1000 ms is discarded and the call never toggles twice, however large the time is within
that range. -/
theorem C10_wallAnimation_single_toggle (self : MapLoader)
    (hrange : self.wallClock < 2 ^ 31 * 1000) :
    (self.wallClock < 1000 * 1000 → self.wallAnimation = self) ∧
    (1000 * 1000 ≤ self.wallClock →
      self.wallAnimation = self.toggleLayerVisibility.restart ∧
      self.wallAnimation.wallClock = 0 ∧
      self.wallAnimation.m_layerVisibility = self.toggleLayerVisibility.m_layerVisibility ∧
      (self.m_layers ≠ [] → self.m_layers.length = self.m_layerVisibility.length →
        self.wallAnimation.m_layerVisibility ≠
          self.toggleLayerVisibility.toggleLayerVisibility.m_layerVisibility)) := by
  have hms := asMilliseconds_of_lt hrange
  constructor
  · intro h
    exact wallAnimation_idle self (by rw [hms]; omega)
  · intro h
    have hfire := wallAnimation_fire self (by rw [hms]; omega)
    refine ⟨hfire, by rw [hfire]; rfl, by rw [hfire]; rfl, ?_⟩
    intro hne hinv
    rw [hfire, toggle_toggle]
    have hpos : 0 < self.m_layers.length := List.length_pos.mpr hne
    have hk : self.m_layers.length - 1 < self.m_layerVisibility.length := by omega
    intro heq
    have h1 := congrArg (fun l => l[self.m_layers.length - 1]?) heq
    simp only [MapLoader.restart, MapLoader.toggleLayerVisibility, ne_eq, hne,
      not_false_eq_true, if_true, List.getElem?_set, hk, List.getD_eq_getElem?_getD,
      List.getElem?_eq_getElem hk, Option.getD_some, Option.some.injEq] at h1
    cases hb : self.m_layerVisibility[self.m_layers.length - 1] <;> simp [hb] at h1

theorem C10_wallAnimation_single_toggle_witness :
    ({ twoLayerMap with wallClock := 2500000 } : MapLoader).wallAnimation =
        { twoLayerMap with m_layerVisibility := [true, false], wallClock := 0 } ∧
      ({ twoLayerMap with wallClock := 2500000 } : MapLoader).wallAnimation.m_layerVisibility ≠
        ({ twoLayerMap with wallClock := 2500000 } :
          MapLoader).toggleLayerVisibility.toggleLayerVisibility.m_layerVisibility ∧
      ({ twoLayerMap with wallClock := 999999 } : MapLoader).wallAnimation =
        { twoLayerMap with wallClock := 999999 } :=
  ⟨((C10_wallAnimation_single_toggle { twoLayerMap with wallClock := 2500000 }
      (by decide)).2 (by decide)).1,
    ((C10_wallAnimation_single_toggle { twoLayerMap with wallClock := 2500000 }
      (by decide)).2 (by decide)).2.2.2 (by decide) (by decide),
    (C10_wallAnimation_single_toggle { twoLayerMap with wallClock := 999999 }
      (by decide)).1 (by decide)⟩

theorem ticks_idle (dts : List Nat) : ∀ self : MapLoader, self.wallClock < SECOND →
    dts.sum = 0 → self.ticks dts = self ∧ self.toggleCount dts = 0 := by
  induction dts with
  | nil => intro self _ _; exact ⟨rfl, rfl⟩
  | cons d ds ih =>
    intro self hc hsum
    simp only [List.sum_cons] at hsum
    have hd : d = 0 := by omega
    have hds : ds.sum = 0 := by omega
    subst hd
    have hidle : asMilliseconds (self.elapse 0).wallClock < 1000 := asMilliseconds_lt hc
    have htick : self.tick 0 = self := by
      unfold MapLoader.tick
      rw [wallAnimation_idle _ hidle, elapse_zero]
    unfold MapLoader.ticks MapLoader.toggleCount
    rw [htick, if_neg (by omega)]
    have := ih self hc hds
    exact ⟨this.1, by rw [this.2]⟩

theorem ticks_second (dts : List Nat) : ∀ self : MapLoader, self.wallClock < SECOND →
    self.wallClock + dts.sum = SECOND →
      self.ticks dts = self.toggleLayerVisibility.restart ∧
        self.toggleCount dts = 1 := by
  induction dts with
  | nil => intro self hc hsum; simp at hsum; omega
  | cons d ds ih =>
    intro self hc hsum
    simp only [List.sum_cons] at hsum
    unfold MapLoader.ticks MapLoader.toggleCount
    by_cases hd : self.wallClock + d < SECOND
    · have hidle : asMilliseconds (self.elapse d).wallClock < 1000 := asMilliseconds_lt hd
      have htick : self.tick d = self.elapse d := by
        unfold MapLoader.tick
        rw [wallAnimation_idle _ hidle]
      rw [htick, if_neg (by omega)]
      have := ih (self.elapse d) hd (by simp only [MapLoader.elapse]; omega)
      rw [toggle_elapse_restart] at this
      exact ⟨this.1, by rw [this.2]⟩
    · have hd2 : self.wallClock + d = SECOND := by omega
      have hds : ds.sum = 0 := by omega
      have hfire : 1000 ≤ asMilliseconds (self.elapse d).wallClock := by
        simp only [MapLoader.elapse, hd2]
        exact asMilliseconds_second
      have htick : self.tick d = self.toggleLayerVisibility.restart := by
        unfold MapLoader.tick
        rw [wallAnimation_fire _ hfire, toggle_elapse_restart]
      rw [htick, if_pos (by omega)]
      have := ticks_idle ds self.toggleLayerVisibility.restart
        (by simp [SECOND, MapLoader.restart]) hds
      exact ⟨this.1, by rw [this.2]⟩

/-- C7: from a zero timer with all layers visible, ticks that sum to exactly 1000 ms
toggle exactly once and leave the last layer hidden (the other flags and the timer at
zero); a further 1000 ms of ticks toggles once more and restores the visibility flags. -/
theorem C7_second_of_ticks_flips_once (self : MapLoader) (dts dts2 : List Nat)
    (hclock : self.wallClock = 0)
    (hlayers : self.m_layers ≠ [])
    (hinv : self.m_layers.length = self.m_layerVisibility.length)
    (hvisible : ∀ v ∈ self.m_layerVisibility, v = true)
    (hsum : dts.sum = SECOND) (hsum2 : dts2.sum = SECOND) :
    self.toggleCount dts = 1 ∧
    (self.ticks dts).m_layerVisibility =
      self.m_layerVisibility.set (self.m_layers.length - 1) false ∧
    (self.ticks dts).m_layerVisibility.getLast? = some false ∧
    (self.ticks dts).wallClock = 0 ∧
    (self.ticks dts).toggleCount dts2 = 1 ∧
    ((self.ticks dts).ticks dts2).m_layerVisibility = self.m_layerVisibility ∧
    ((self.ticks dts).ticks dts2).m_layerVisibility.getLast? = some true ∧
    (self.ticks dts).ticks dts2 = self := by
  have hpos : 0 < self.m_layers.length := List.length_pos.mpr hlayers
  have h1 := ticks_second dts self (by simp [hclock, SECOND]) (by rw [hclock, hsum]; simp)
  have h2 := ticks_second dts2 (self.ticks dts) (by rw [h1.1]; simp [SECOND, MapLoader.restart])
    (by rw [h1.1]; simp [hsum2, MapLoader.restart])
  have hlast : self.m_layerVisibility[self.m_layers.length - 1]?.getD false = true := by
    rw [List.getElem?_eq_getElem (by omega)]
    exact hvisible _ (List.getElem_mem _)
  have hvis1 : (self.ticks dts).m_layerVisibility =
      self.m_layerVisibility.set (self.m_layers.length - 1) false := by
    rw [h1.1]
    simp [MapLoader.toggleLayerVisibility, MapLoader.restart, hlayers, hlast]
  have hback : (self.ticks dts).ticks dts2 = self := by
    rw [h2.1, h1.1, toggle_restart, toggle_toggle]
    have h0 : self.restart = self := restart_of_zero self hclock
    rw [h0, h0]
  refine ⟨h1.2, hvis1, ?_, by rw [h1.1]; rfl, h2.2, by rw [hback], ?_, hback⟩
  · rw [hvis1, List.getLast?_eq_getElem?, List.length_set, ← hinv, List.getElem?_set]
    simp
    omega
  · rw [hback, List.getLast?_eq_getElem?, ← hinv, List.getElem?_eq_getElem (by omega)]
    exact congrArg some (hvisible _ (List.getElem_mem _))

theorem C7_second_of_ticks_flips_once_witness :
    (twoLayerMap.ticks [400000, 350000, 250000]).m_layerVisibility = [true, false] ∧
      twoLayerMap.toggleCount [400000, 350000, 250000] = 1 ∧
      ((twoLayerMap.ticks [400000, 350000, 250000]).ticks [999999, 1, 0]).m_layerVisibility =
        [true, true] := by
  have h := C7_second_of_ticks_flips_once twoLayerMap [400000, 350000, 250000] [999999, 1, 0]
    rfl (by decide) rfl (by decide) (by decide) (by decide)
  exact ⟨h.2.1, h.1, h.2.2.2.2.2.1⟩

/-! ### Parsing -/

theorem getlineTokens_eq (ss : List Char) :
    getlineTokens ss =
      match getline ss with
      | none => []
      | some (token, rest) => token :: getlineTokens rest := by
  induction ss with
  | nil => rfl
  | cons c cs ih =>
    by_cases hc : c = ','
    · subst hc
      simp [getlineTokens, getline]
    · simp only [getlineTokens, hc, if_false, getline, ne_eq, not_false_eq_true, decide_True,
        List.takeWhile_cons_of_pos, List.dropWhile_cons_of_pos]
      rw [ih]
      cases cs with
      | nil => simp [getline, getlineTokens]
      | cons d ds => simp [getline]

theorem digitChar_spec : ∀ k < 10,
    isdigit (Nat.digitChar k) = true ∧ digitValue (Nat.digitChar k) = k := by
  decide

theorem isdigit_not_special {c : Char} (h : isdigit c = true) :
    isspace c = false ∧ c ≠ '-' ∧ c ≠ '+' ∧ c ≠ ',' := by
  simp only [isdigit, Bool.and_eq_true, decide_eq_true_eq] at h
  refine ⟨?_, ?_, ?_, ?_⟩
  · simp only [isspace, Bool.or_eq_false_iff, decide_eq_false_iff_not, Bool.and_eq_false_imp,
      decide_eq_true_eq]
    omega
  all_goals
    intro hc
    subst hc
    revert h
    decide

theorem decimalValue_append (l : List Char) (c : Char) :
    decimalValue (l ++ [c]) = decimalValue l * 10 + digitValue c := by
  simp [decimalValue, List.foldl_append]

theorem toDigitsCore_spec (fuel : Nat) : ∀ (n : Nat) (ds : List Char), n < fuel →
    ∃ pre, Nat.toDigitsCore 10 fuel n ds = pre ++ ds ∧ pre ≠ [] ∧
      (∀ c ∈ pre, isdigit c = true) ∧ decimalValue pre = n := by
  induction fuel with
  | zero => intro n ds h; omega
  | succ fuel ih =>
    intro n ds h
    have hd := digitChar_spec (n % 10) (Nat.mod_lt _ (by norm_num))
    unfold Nat.toDigitsCore
    by_cases h0 : n / 10 = 0
    · refine ⟨[Nat.digitChar (n % 10)], by simp [h0], by simp, by simpa using hd.1, ?_⟩
      simp only [decimalValue, List.foldl_cons, List.foldl_nil, hd.2]
      omega
    · obtain ⟨pre, h1, _, h3, h4⟩ := ih (n / 10) (Nat.digitChar (n % 10) :: ds) (by omega)
      refine ⟨pre ++ [Nat.digitChar (n % 10)], by simp [h0, h1], by simp, ?_, ?_⟩
      · intro c hc
        rcases List.mem_append.mp hc with hc | hc
        · exact h3 c hc
        · simp only [List.mem_singleton] at hc
          rw [hc]
          exact hd.1
      · rw [decimalValue_append, h4, hd.2]
        omega

theorem toDigits_spec (n : Nat) :
    Nat.toDigits 10 n ≠ [] ∧ (∀ c ∈ Nat.toDigits 10 n, isdigit c = true) ∧
      decimalValue (Nat.toDigits 10 n) = n := by
  obtain ⟨pre, h1, h2, h3, h4⟩ := toDigitsCore_spec (n + 1) n [] (by omega)
  have : Nat.toDigits 10 n = pre := by simpa [Nat.toDigits] using h1
  rw [this]
  exact ⟨h2, h3, h4⟩

theorem renderInt_ofNat (m : Nat) : renderInt (Int.ofNat m) = Nat.toDigits 10 m := rfl

theorem renderInt_negSucc (m : Nat) :
    renderInt (Int.negSucc m) = '-' :: Nat.toDigits 10 (m + 1) := rfl

theorem takeWhile_all {p : Char → Bool} : ∀ {l : List Char}, (∀ c ∈ l, p c = true) →
    l.takeWhile p = l
  | [], _ => rfl
  | c :: l, h => by
    rw [List.takeWhile_cons, if_pos (h c (List.mem_cons_self _ _)),
      takeWhile_all (fun d hd => h d (List.mem_cons_of_mem _ hd))]

theorem stoi_digits (neg : Bool) (ds : List Char) (hne : ds ≠ [])
    (hds : ∀ c ∈ ds, isdigit c = true) :
    stoi (if neg then '-' :: ds else ds) =
      if (if neg then -(decimalValue ds : Int) else decimalValue ds) < INT_MIN ∨
          INT_MAX < (if neg then -(decimalValue ds : Int) else decimalValue ds)
      then .error .out_of_range
      else .ok (if neg then -(decimalValue ds : Int) else decimalValue ds) := by
  obtain ⟨d, ds1, rfl⟩ := List.exists_cons_of_ne_nil hne
  have hd := isdigit_not_special (hds d (List.mem_cons_self _ _))
  have htake : (d :: ds1).takeWhile isdigit = d :: ds1 := takeWhile_all hds
  cases neg with
  | false =>
    simp only [Bool.false_eq_true, if_false]
    unfold stoi
    simp only [List.dropWhile_cons, hd.1, Bool.false_eq_true, if_false, splitSign, hd.2.1,
      hd.2.2.1, htake]
    simp
  | true =>
    simp only [if_true]
    unfold stoi
    have hminus : isspace '-' = false := by decide
    simp only [List.dropWhile_cons, hminus, Bool.false_eq_true, if_false, splitSign, if_true,
      htake]
    simp

theorem stoi_renderInt (x : Int) (h : INT_MIN ≤ x ∧ x ≤ INT_MAX) :
    stoi (renderInt x) = .ok x := by
  cases x with
  | ofNat m =>
    obtain ⟨h1, h2, h3⟩ := toDigits_spec m
    have := stoi_digits false _ h1 h2
    simp only [Bool.false_eq_true, if_false, h3] at this
    rw [renderInt_ofNat, this, if_neg]
    · rfl
    · simp only [Int.ofNat_eq_coe] at h
      omega
  | negSucc m =>
    obtain ⟨h1, h2, h3⟩ := toDigits_spec (m + 1)
    have := stoi_digits true _ h1 h2
    simp only [if_true, h3] at this
    rw [renderInt_negSucc, this, if_neg]
    · congr 1
    · have e : (Int.negSucc m) = -((m + 1 : Nat) : Int) := rfl
      rw [e] at h
      omega

theorem renderInt_tokenlike (x : Int) : renderInt x ≠ [] ∧ ',' ∉ renderInt x := by
  cases x with
  | ofNat m =>
    obtain ⟨h1, h2, _⟩ := toDigits_spec m
    rw [renderInt_ofNat]
    exact ⟨h1, fun hc => (isdigit_not_special (h2 _ hc)).2.2.2 rfl⟩
  | negSucc m =>
    obtain ⟨_, h2, _⟩ := toDigits_spec (m + 1)
    rw [renderInt_negSucc]
    refine ⟨by simp, fun hc => ?_⟩
    rcases List.mem_cons.mp hc with hc | hc
    · exact absurd hc (by decide)
    · exact (isdigit_not_special (h2 _ hc)).2.2.2 rfl

theorem joinComma_cons (t : List Char) {rest : List (List Char)} (h : rest ≠ []) :
    joinComma (t :: rest) = t ++ ',' :: joinComma rest := by
  cases rest with
  | nil => exact absurd rfl h
  | cons r rs => rfl

theorem getlineTokens_token_comma (t rest : List Char) (ht : ',' ∉ t) :
    getlineTokens (t ++ ',' :: rest) = t :: getlineTokens rest := by
  induction t with
  | nil => simp [getlineTokens]
  | cons c cs ih =>
    have hc : c ≠ ',' := fun h => ht (h ▸ List.mem_cons_self _ _)
    have hcs : ',' ∉ cs := fun h => ht (List.mem_cons_of_mem _ h)
    rw [List.cons_append, getlineTokens, if_neg hc, ih hcs]

theorem getlineTokens_last (t : List Char) (ht : ',' ∉ t) :
    getlineTokens t = if t = [] then [] else [t] := by
  induction t with
  | nil => rfl
  | cons c cs ih =>
    have hc : c ≠ ',' := fun h => ht (h ▸ List.mem_cons_self _ _)
    have hcs : ',' ∉ cs := fun h => ht (List.mem_cons_of_mem _ h)
    simp only [getlineTokens, hc, if_false, ih hcs]
    cases cs with
    | nil => simp
    | cons d ds => simp

/-- The tokens the loop sees in a text: its comma-separated pieces, except that an empty
last piece (an empty text, or the text after a final comma) is not extracted. -/
theorem getlineTokens_joinComma (tokens : List (List Char)) (last : List Char)
    (htokens : ∀ t ∈ tokens, ',' ∉ t) (hlast : ',' ∉ last) :
    getlineTokens (joinComma (tokens ++ [last])) =
      tokens ++ (if last = [] then [] else [last]) := by
  induction tokens with
  | nil => simpa [joinComma] using getlineTokens_last last hlast
  | cons t ts ih =>
    rw [List.cons_append, joinComma_cons t (by simp),
      getlineTokens_token_comma _ _ (htokens t (List.mem_cons_self _ _)),
      ih (fun u hu => htokens u (List.mem_cons_of_mem _ hu))]
    rfl

theorem parseCSVLoop_render (xs : List Int) : ∀ acc : List Int,
    (∀ x ∈ xs, INT_MIN ≤ x ∧ x ≤ INT_MAX) →
      parseCSVLoop (xs.map renderInt) acc = .ok (acc ++ xs) := by
  induction xs with
  | nil => intro acc _; simp [parseCSVLoop]
  | cons x xs ih =>
    intro acc h
    simp only [List.map_cons, parseCSVLoop, stoi_renderInt x (h x (List.mem_cons_self _ _))]
    rw [ih _ (fun y hy => h y (List.mem_cons_of_mem _ hy))]
    simp

theorem intercalate_go_toList (sep : String) : ∀ (strs : List String) (acc : String),
    (String.intercalate.go acc sep strs).toList =
      acc.toList ++ (strs.map (fun a => sep.toList ++ a.toList)).flatten := by
  intro strs
  induction strs with
  | nil => intro acc; simp [String.intercalate.go]
  | cons a rest ih =>
    intro acc
    rw [String.intercalate.go, ih]
    simp [String.toList, String.data_append]

theorem joinComma_eq (t : List Char) (rest : List (List Char)) :
    joinComma (t :: rest) = t ++ (rest.map (fun a => ',' :: a)).flatten := by
  induction rest generalizing t with
  | nil => simp [joinComma]
  | cons r rs ih => rw [joinComma_cons t (by simp), ih]; simp

theorem intercalate_comma_toList (strs : List String) :
    (",".intercalate strs).toList = joinComma (strs.map String.toList) := by
  cases strs with
  | nil => rfl
  | cons a rest =>
    rw [String.intercalate, intercalate_go_toList, List.map_cons, joinComma_eq]
    simp [String.toList, Function.comp_def]

/-- C3: parseCSV applied to the decimal renderings of a list of int values joined by
commas returns exactly that list, for example [1,2,3,0,5] from the text 1,2,3,0,5. -/
theorem C3_parseCSV_round_trip (xs : List Int)
    (hint : ∀ x ∈ xs, INT_MIN ≤ x ∧ x ≤ INT_MAX) :
    parseCSV (",".intercalate (xs.map toString)) = .ok xs := by
  unfold parseCSV
  rw [intercalate_comma_toList, List.map_map]
  have hmap : xs.map (String.toList ∘ toString) = xs.map renderInt := rfl
  rw [hmap]
  rcases List.eq_nil_or_concat xs with rfl | ⟨ys, y, rfl⟩
  · rfl
  · simp only [List.concat_eq_append] at hint ⊢
    have hsplit : (ys ++ [y]).map renderInt = ys.map renderInt ++ [renderInt y] := by simp
    rw [hsplit, getlineTokens_joinComma _ _
      (fun t ht => by
        obtain ⟨x, _, rfl⟩ := List.mem_map.mp ht
        exact (renderInt_tokenlike x).2)
      (renderInt_tokenlike y).2, if_neg (renderInt_tokenlike y).1, ← hsplit,
      parseCSVLoop_render _ _ hint]
    rfl

theorem C3_parseCSV_round_trip_witness :
    ",".intercalate ([1, 2, 3, 0, 5].map (toString : Int → String)) = "1,2,3,0,5" ∧
      parseCSV "1,2,3,0,5" = .ok [1, 2, 3, 0, 5] :=
  ⟨by decide, C3_parseCSV_round_trip [1, 2, 3, 0, 5] (by decide)⟩


theorem dropWhile_append_of_all {p : Char → Bool} : ∀ {ws : List Char} (l : List Char),
    (∀ c ∈ ws, p c = true) → (ws ++ l).dropWhile p = l.dropWhile p
  | [], _, _ => rfl
  | c :: ws, l, h => by
    rw [List.cons_append, List.dropWhile_cons, if_pos (h c (List.mem_cons_self _ _)),
      dropWhile_append_of_all l (fun d hd => h d (List.mem_cons_of_mem _ hd))]

theorem dropWhile_of_head {p : Char → Bool} : ∀ (l : List Char),
    (∀ c ∈ l.head?, p c = false) → l.dropWhile p = l
  | [], _ => rfl
  | c :: l, h => by
    rw [List.dropWhile_cons, if_neg]
    simpa using h c (by simp)

theorem takeWhile_append_of_all {p : Char → Bool} : ∀ {ds : List Char} (rest : List Char),
    (∀ c ∈ ds, p c = true) → (∀ c ∈ rest.head?, p c = false) →
      (ds ++ rest).takeWhile p = ds
  | [], [], _, _ => rfl
  | [], c :: rest, _, h => by
    rw [List.nil_append, List.takeWhile_cons, if_neg]
    simpa using h c (by simp)
  | d :: ds, rest, h, h2 => by
    rw [List.cons_append, List.takeWhile_cons, if_pos (h d (List.mem_cons_self _ _)),
      takeWhile_append_of_all rest (fun e he => h e (List.mem_cons_of_mem _ he)) h2]

theorem head_dropWhile_not (p : Char → Bool) : ∀ (l : List Char),
    ∀ c ∈ (l.dropWhile p).head?, p c = false
  | [] => by simp
  | d :: l => by
    rw [List.dropWhile_cons]
    by_cases hd : p d = true
    · rw [if_pos hd]
      exact head_dropWhile_not p l
    · rw [if_neg hd]
      intro c hc
      simp only [List.head?_cons, Option.mem_def, Option.some.injEq] at hc
      subst hc
      simpa using hd

theorem takeWhile_forall (p : Char → Bool) : ∀ (l : List Char), ∀ c ∈ l.takeWhile p, p c = true
  | [] => by simp
  | d :: l => by
    rw [List.takeWhile_cons]
    by_cases hd : p d = true
    · rw [if_pos hd]
      intro c hc
      rcases List.mem_cons.mp hc with rfl | hc
      · exact hd
      · exact takeWhile_forall p l c hc
    · rw [if_neg hd]
      simp

theorem splitSign_spec (s : List Char) :
    ∃ sign, s = sign ++ (splitSign s).2 ∧
      ((sign = [] ∧ (splitSign s).1 = false) ∨ (sign = ['+'] ∧ (splitSign s).1 = false) ∨
        (sign = ['-'] ∧ (splitSign s).1 = true)) := by
  cases s with
  | nil => exact ⟨[], rfl, Or.inl ⟨rfl, rfl⟩⟩
  | cons c cs =>
    unfold splitSign
    by_cases h1 : c = '-'
    · subst h1
      exact ⟨['-'], by simp, Or.inr (Or.inr ⟨rfl, by simp⟩)⟩
    · by_cases h2 : c = '+'
      · subst h2
        exact ⟨['+'], by simp, Or.inr (Or.inl ⟨rfl, by simp⟩)⟩
      · exact ⟨[], by simp [h1, h2], Or.inl ⟨rfl, by simp [h1, h2]⟩⟩

theorem splitSign_sign_digits (sign ds rest : List Char)
    (hsign : sign = [] ∨ sign = ['+'] ∨ sign = ['-']) (hne : ds ≠ [])
    (hds : ∀ c ∈ ds, isdigit c = true) :
    splitSign (sign ++ (ds ++ rest)) = (decide (sign = ['-']), ds ++ rest) ∧
      ∀ c ∈ (sign ++ (ds ++ rest)).head?, isspace c = false := by
  obtain ⟨d, ds1, rfl⟩ := List.exists_cons_of_ne_nil hne
  have hd := isdigit_not_special (hds d (List.mem_cons_self _ _))
  rcases hsign with rfl | rfl | rfl
  · refine ⟨by simp [splitSign, hd.2.1, hd.2.2.1], ?_⟩
    intro c hc
    simp only [List.nil_append, List.cons_append, List.head?_cons, Option.mem_def,
      Option.some.injEq] at hc
    rw [← hc]
    exact hd.1
  · refine ⟨by simp [splitSign], ?_⟩
    intro c hc
    simp only [List.cons_append, List.head?_cons, Option.mem_def, Option.some.injEq] at hc
    rw [← hc]
    decide
  · refine ⟨by simp [splitSign], ?_⟩
    intro c hc
    simp only [List.cons_append, List.head?_cons, Option.mem_def, Option.some.injEq] at hc
    rw [← hc]
    decide

/-- What stoi accepts: exactly the tokens that start with an integer in the range of
int, which is then the result. -/
theorem stoi_ok_iff (token : List Char) (v : Int) :
    stoi token = .ok v ↔ StartsWithInteger token v ∧ INT_MIN ≤ v ∧ v ≤ INT_MAX := by
  constructor
  · intro h
    unfold stoi at h
    obtain ⟨sign, hs, hsign⟩ := splitSign_spec (token.dropWhile isspace)
    generalize hsg : splitSign (token.dropWhile isspace) = signed at h hs hsign
    by_cases hdig : signed.2.takeWhile isdigit = []
    · simp [hdig] at h
    · simp only [hdig, if_false] at h
      have key : ∀ value : Int,
          (if value < INT_MIN ∨ INT_MAX < value then
              (Except.error Exception.out_of_range : Except Exception Int)
            else Except.ok value) = Except.ok v →
            value = v ∧ INT_MIN ≤ v ∧ v ≤ INT_MAX := by
        intro value hh
        by_cases hr : value < INT_MIN ∨ INT_MAX < value
        · rw [if_pos hr] at hh
          cases hh
        · rw [if_neg hr] at hh
          cases hh
          omega
      obtain ⟨hval, hr⟩ := key _ h
      refine ⟨⟨token.takeWhile isspace, sign, signed.2.takeWhile isdigit,
        signed.2.dropWhile isdigit, ?_, takeWhile_forall _ _, ?_, hdig,
        takeWhile_forall _ _, head_dropWhile_not _ _, ?_⟩, hr⟩
      · rw [List.takeWhile_append_dropWhile, ← hs, List.takeWhile_append_dropWhile]
      · rcases hsign with h1 | h1 | h1
        · exact Or.inl h1.1
        · exact Or.inr (Or.inl h1.1)
        · exact Or.inr (Or.inr h1.1)
      · rw [← hval]
        rcases hsign with h1 | h1 | h1 <;> simp [h1.1, h1.2]
  · rintro ⟨⟨ws, sign, ds, rest, rfl, hws, hsign, hne, hds, hrest, hv⟩, hmin, hmax⟩
    obtain ⟨h1, h2⟩ := splitSign_sign_digits sign ds rest hsign hne hds
    unfold stoi
    rw [dropWhile_append_of_all _ hws, dropWhile_of_head _ h2, h1]
    simp only [takeWhile_append_of_all rest hds hrest, hne, if_false, decide_eq_true_eq]
    rw [← hv, if_neg (by omega)]

theorem parseCSVLoop_error_iff (tokens : List (List Char)) : ∀ acc : List Int,
    (∃ e, parseCSVLoop tokens acc = .error e) ↔ ∃ t ∈ tokens, ∃ e, stoi t = .error e := by
  induction tokens with
  | nil => intro acc; simp [parseCSVLoop]
  | cons t ts ih =>
    intro acc
    unfold parseCSVLoop
    cases h : stoi t with
    | error e => simp [h]
    | ok v => simp [h, ih]

theorem stoi_error_iff (token : List Char) :
    (∃ e, stoi token = .error e) ↔
      ¬ ∃ v, StartsWithInteger token v ∧ INT_MIN ≤ v ∧ v ≤ INT_MAX := by
  constructor
  · rintro ⟨e, he⟩ ⟨v, hv⟩
    rw [(stoi_ok_iff token v).mpr hv] at he
    exact absurd he (by simp)
  · intro h
    cases hs : stoi token with
    | error e => exact ⟨e, rfl⟩
    | ok v => exact absurd ⟨v, (stoi_ok_iff token v).mp hs⟩ h

/-- Every text is the comma-join of comma-free pieces. -/
theorem text_decomposition (text : List Char) :
    ∃ tokens last, (∀ t ∈ tokens, ',' ∉ t) ∧ ',' ∉ last ∧
      joinComma (tokens ++ [last]) = text := by
  induction text with
  | nil => exact ⟨[], [], by simp, by simp, rfl⟩
  | cons c cs ih =>
    obtain ⟨tokens, last, h1, h2, h3⟩ := ih
    by_cases hc : c = ','
    · refine ⟨[] :: tokens, last, ?_, h2, ?_⟩
      · intro t ht
        rcases List.mem_cons.mp ht with rfl | ht
        · simp
        · exact h1 t ht
      · rw [List.cons_append, joinComma_cons _ (by simp), h3, hc]
        rfl
    · cases tokens with
      | nil =>
        refine ⟨[], c :: last, by simp, ?_, ?_⟩
        · simp only [List.mem_cons, not_or]
          exact ⟨fun h => hc h.symm, h2⟩
        · simpa [joinComma] using h3
      | cons t ts =>
        refine ⟨(c :: t) :: ts, last, ?_, h2, ?_⟩
        · intro u hu
          rcases List.mem_cons.mp hu with rfl | hu
          · simp only [List.mem_cons, not_or]
            exact ⟨fun h => hc h.symm, h1 t (List.mem_cons_self _ _)⟩
          · exact h1 u (List.mem_cons_of_mem _ hu)
        · rw [List.cons_append, joinComma_cons _ (by simp)] at h3 ⊢
          rw [← h3]
          rfl

/-- C4 as stated fails: in the text 1,3abc,2 the token 3abc is not a valid integer, yet
parseCSV accepts it silently as 3 and returns [1, 3, 2]; and the empty piece after the
last comma of the text 1,2, is dropped silently. -/
theorem C4_counterexample_trailing_characters :
    (joinComma ["1".toList, "3abc".toList, "2".toList] = "1,3abc,2".toList ∧
      validInteger "3abc".toList = false ∧
      parseCSV "1,3abc,2" = .ok [1, 3, 2]) ∧
    (joinComma ["1".toList, "2".toList, "".toList] = "1,2,".toList ∧
      validInteger "".toList = false ∧
      parseCSV "1,2," = .ok [1, 2]) := by
  decide

/-- C4 (amended): parseCSV fails exactly when some token the loop extracts (every
comma-separated piece of the text, except an empty last piece) does not start with an
integer in the range of int, read the way stoi reads it: after optional white space
and an optional sign there must be a digit. Characters after the digits are ignored. -/
theorem C4_parseCSV_fails_iff (tokens : List (List Char)) (last : List Char)
    (htokens : ∀ t ∈ tokens, ',' ∉ t) (hlast : ',' ∉ last) :
    (∃ e, parseCSV (String.mk (joinComma (tokens ++ [last]))) = .error e) ↔
      ∃ t ∈ tokens ++ (if last = [] then [] else [last]),
        ¬ ∃ v, StartsWithInteger t v ∧ INT_MIN ≤ v ∧ v ≤ INT_MAX := by
  unfold parseCSV
  rw [show (String.mk (joinComma (tokens ++ [last]))).toList = joinComma (tokens ++ [last])
    from rfl, getlineTokens_joinComma tokens last htokens hlast, parseCSVLoop_error_iff]
  simp only [stoi_error_iff]

theorem C4_parseCSV_fails_iff_witness :
    "1,x,,3" = String.mk (joinComma (["1".toList, "x".toList, "".toList] ++ ["3".toList])) ∧
      ∃ e, parseCSV (String.mk
        (joinComma (["1".toList, "x".toList, "".toList] ++ ["3".toList]))) = .error e :=
  ⟨by decide,
    (C4_parseCSV_fails_iff ["1".toList, "x".toList, "".toList] "3".toList
      (by decide) (by decide)).mpr
      ⟨"".toList, by decide, (stoi_error_iff _).mp ⟨.invalid_argument, by decide⟩⟩⟩

/-- At the edge of the int range: the text 2147483647 parses, the text 2147483648 makes
stoi throw std::out_of_range. -/
theorem parseCSV_int_range :
    parseCSV "2147483647" = .ok [2147483647] ∧
      parseCSV "-2147483648" = .ok [-2147483648] ∧
      parseCSV "2147483648" = .error .out_of_range := by
  decide

/-! ### Layer building -/

theorem foldlM_range_inv {β : Type} (f : β → Nat → Except Fault β) (I : Nat → β → Prop)
    (n : Nat) (b0 : β) (h0 : I 0 b0)
    (hstep : ∀ k < n, ∀ b, I k b → ∃ b', f b k = .ok b' ∧ I (k + 1) b') :
    ∃ b, (List.range n).foldlM f b0 = .ok b ∧ I n b := by
  induction n with
  | zero => exact ⟨b0, rfl, h0⟩
  | succ n ih =>
    obtain ⟨b, hb, hI⟩ := ih (fun k hk => hstep k (by omega))
    obtain ⟨b', hb', hI'⟩ := hstep n (by omega) b hI
    refine ⟨b', ?_, hI'⟩
    rw [List.range_succ, List.foldlM_append, hb]
    simp only [List.foldlM_cons, List.foldlM_nil]
    show (f b n >>= pure) = _
    rw [hb']
    rfl

theorem quadAt_eq (buf : List Vertex) (k : Nat) (v0 v1 v2 v3 : Vertex)
    (h0 : buf[4 * k]? = some v0) (h1 : buf[4 * k + 1]? = some v1)
    (h2 : buf[4 * k + 2]? = some v2) (h3 : buf[4 * k + 3]? = some v3) :
    quadAt buf k = [v0, v1, v2, v3] := by
  unfold quadAt
  apply List.ext_getElem?
  intro n
  rw [List.getElem?_take]
  by_cases hn : n < 4
  · rw [if_pos hn, List.getElem?_drop]
    interval_cases n
    · simpa using h0
    · simpa using h1
    · simpa using h2
    · simpa using h3
  · rw [if_neg hn]
    rw [List.getElem?_eq_none]
    simp
    omega

theorem cell_index_lt {width height i j : Nat} (hi : i < width) (hj : j < height) :
    i + j * width < width * height := by
  have h1 : (j + 1) * width ≤ height * width := Nat.mul_le_mul_right width hj
  have h2 : (j + 1) * width = j * width + width := by ring
  have h3 : height * width = width * height := Nat.mul_comm _ _
  omega

theorem cell_index_inj {width i j i' j' : Nat} (hi : i < width) (hi' : i' < width)
    (h : i + j * width = i' + j' * width) : i = i' ∧ j = j' := by
  have h1 : (i + j * width) % width = i := by
    rw [Nat.add_mul_mod_self_right, Nat.mod_eq_of_lt hi]
  have h2 : (i' + j' * width) % width = i' := by
    rw [Nat.add_mul_mod_self_right, Nat.mod_eq_of_lt hi']
  have hii : i = i' := by rw [← h1, ← h2, h]
  subst hii
  have hw : 0 < width := by omega
  have : j * width = j' * width := by omega
  exact ⟨rfl, Nat.eq_of_mul_eq_mul_right hw this⟩

theorem set4_get (buf : List Vertex) (b : Nat) (q0 q1 q2 q3 : Vertex)
    (hb : b + 3 < buf.length) (m : Nat) :
    ((((buf.set b q0).set (b + 1) q1).set (b + 2) q2).set (b + 3) q3)[m]? =
      if m = b then some q0 else if m = b + 1 then some q1
      else if m = b + 2 then some q2 else if m = b + 3 then some q3 else buf[m]? := by
  simp only [List.getElem?_set, List.length_set]
  by_cases h3 : b + 3 = m
  · subst h3
    simp [hb]
  · by_cases h2 : b + 2 = m
    · subst h2
      have : b + 2 < buf.length := by omega
      simp [this]
    · by_cases h1 : b + 1 = m
      · subst h1
        have : b + 1 < buf.length := by omega
        simp [this]
      · by_cases h0 : b = m
        · subst h0
          have : b < buf.length := by omega
          simp [this]
        · simp [h0, h1, h2, h3, Ne.symm h0, Ne.symm h1, Ne.symm h2, Ne.symm h3]

theorem excessBits_small (fuel n : Nat) (h : n < 2 ^ 24) : excessBits fuel n = 0 := by
  cases fuel with
  | zero => rfl
  | succ f => rw [excessBits, if_pos h]

theorem floatOfUnsigned_exact (n : Nat) (h : n ≤ FLOAT_EXACT) : floatOfUnsigned n = n := by
  unfold FLOAT_EXACT at h
  rcases Nat.lt_or_eq_of_le h with h | h
  · simp [floatOfUnsigned, excessBits_small _ _ h, Nat.mod_one]
  · subst h
    decide

theorem floatExact_of_le {c : Nat} (h : c ≤ FLOAT_EXACT) : FloatExact c :=
  ⟨by unfold FLOAT_EXACT at h; unfold UINT_MOD; omega, floatOfUnsigned_exact c h⟩

theorem ofUnsigned_exact (x y : Nat) (hx : FloatExact x) (hy : FloatExact y) :
    Vector2f.ofUnsigned (x % UINT_MOD) (y % UINT_MOD) = ⟨x, y⟩ := by
  rw [Nat.mod_eq_of_lt hx.1, Nat.mod_eq_of_lt hy.1, Vector2f.ofUnsigned, hx.2, hy.2]

theorem loadCell_step (tileIDs : List Int) (tilesetWidth : Nat) (tileSize : Vector2)
    (width height : Nat) (H : LayerLoads tileIDs tilesetWidth tileSize width height)
    (i j : Nat) (hi : i < width) (hj : j < height) (done : Nat → Nat → Bool)
    (buf : List Vertex)
    (hinv : BuiltUpTo tileIDs tilesetWidth tileSize width height done buf) :
    ∃ buf1, loadCell tileIDs tilesetWidth tileSize width i j buf = .ok buf1 ∧
      BuiltUpTo tileIDs tilesetWidth tileSize width height
        (fun i1 j1 => done i1 j1 || (i1 == i && j1 == j)) buf1 := by
  obtain ⟨hlen, hbuf, hids⟩ := H
  obtain ⟨hblen, hget⟩ := hinv
  have hc := cell_index_lt hi hj
  have hidx : (i + j * width) % UINT_MOD = i + j * width := Nat.mod_eq_of_lt (by omega)
  obtain ⟨id, hid⟩ : ∃ id, tileIDs[i + j * width]? = some id :=
    ⟨tileIDs[i + j * width], List.getElem?_eq_getElem (by omega)⟩
  obtain ⟨hmin, hcols⟩ := hids _ hc id hid
  have hgetD : tileIDs.getD (i + j * width) 0 = id := by
    rw [List.getD_eq_getElem?_getD, hid]
    rfl
  unfold loadCell
  simp only [hidx, hid]
  rw [if_neg (by omega)]
  by_cases hneg : id - 1 < 0
  · rw [if_pos hneg]
    refine ⟨buf, rfl, hblen, ?_⟩
    intro i1 hi1 j1 hj1 r hr
    rw [hget i1 hi1 j1 hj1 r hr]
    by_cases hd : done i1 j1 = true
    · simp [hd]
    · by_cases hij : i1 = i ∧ j1 = j
      · obtain ⟨rfl, rfl⟩ := hij
        simp only [hd, storedVertex, storedQuad, hgetD, hneg]
        interval_cases r <;> simp
      · have : (i1 == i && j1 == j) = false := by
          simp only [Bool.and_eq_false_imp, beq_iff_eq, beq_eq_false_iff_ne]
          tauto
        simp [hd, this]
  · rw [if_neg hneg]
    have hcols := hcols (by omega)
    have htx : tileSize.x ≠ 0 := by
      intro h0
      rw [h0] at hcols
      simp at hcols
    rw [if_neg htx, if_neg (by omega),
      Nat.mod_eq_of_lt (show (i + j * width) * 4 < UINT_MOD by omega),
      Nat.mul_comm (i + j * width) 4]
    unfold writeQuad
    rw [if_pos (by omega)]
    refine ⟨_, rfl, by simp only [List.length_set]; exact hblen, ?_⟩
    intro i1 hi1 j1 hj1 r hr
    rw [set4_get _ _ _ _ _ _ (by omega)]
    by_cases hij : i1 = i ∧ j1 = j
    · obtain ⟨rfl, rfl⟩ := hij
      simp only [beq_self_eq_true, Bool.and_self, Bool.or_true, if_true, storedVertex,
        storedQuad, hgetD, hneg, if_false]
      interval_cases r <;> simp
    · have hne : i1 + j1 * width ≠ i + j * width := fun h => hij (cell_index_inj hi1 hi h)
      have : (i1 == i && j1 == j) = false := by
        simp only [Bool.and_eq_false_imp, beq_iff_eq, beq_eq_false_iff_ne]
        tauto
      rw [if_neg (by omega), if_neg (by omega), if_neg (by omega), if_neg (by omega),
        hget i1 hi1 j1 hj1 r hr]
      simp [this]

/-- On inputs without undefined behaviour the layer builder returns a buffer of
width × height quads, and the quad of every cell is the stored quad. -/
theorem buildLayer_stored (tileIDs : List Int) (tilesetWidth : Nat) (tileSize : Vector2)
    (width height : Nat) (H : LayerLoads tileIDs tilesetWidth tileSize width height) :
    ∃ buf, buildLayer tileIDs tilesetWidth tileSize width height = .ok buf ∧
      buf.length = 4 * (width * height) ∧
      ∀ i < width, ∀ j < height,
        quadAt buf (i + j * width) = storedQuad tileIDs tilesetWidth tileSize width i j := by
  have hbuf : width * height * 4 < UINT_MOD := H.2.1
  obtain ⟨buf, hbuild, hlen, hget⟩ := foldlM_range_inv
    (fun layerVertices i =>
      (List.range height).foldlM
        (fun layerVertices j => loadCell tileIDs tilesetWidth tileSize width i j layerVertices)
        layerVertices)
    (fun i buf => BuiltUpTo tileIDs tilesetWidth tileSize width height
      (fun i1 _ => decide (i1 < i)) buf)
    width (List.replicate (width * height * 4 % UINT_MOD) {})
    (by
      rw [Nat.mod_eq_of_lt hbuf]
      refine ⟨by rw [List.length_replicate]; omega, ?_⟩
      intro i hi j hj r hr
      have := cell_index_lt hi hj
      rw [List.getElem?_replicate, if_pos (by omega)]
      simp)
    (by
      intro i hi buf hinv
      obtain ⟨buf1, h1, h2, h3⟩ := foldlM_range_inv
        (fun layerVertices j => loadCell tileIDs tilesetWidth tileSize width i j layerVertices)
        (fun j buf => BuiltUpTo tileIDs tilesetWidth tileSize width height
          (fun i1 j1 => decide (i1 < i) || (i1 == i && decide (j1 < j))) buf)
        height buf
        (by
          refine ⟨hinv.1, ?_⟩
          intro i1 hi1 j1 hj1 r hr
          rw [hinv.2 i1 hi1 j1 hj1 r hr]
          simp)
        (by
          intro j hj b hb
          obtain ⟨b1, hb1, hb2, hb3⟩ := loadCell_step tileIDs tilesetWidth tileSize width height
            H i j hi hj _ b hb
          refine ⟨b1, hb1, hb2, ?_⟩
          intro i1 hi1 j1 hj1 r hr
          rw [hb3 i1 hi1 j1 hj1 r hr]
          congr 2
          simp only [Bool.or_eq_true, Bool.and_eq_true, beq_iff_eq, decide_eq_true_eq, eq_iff_iff]
          constructor
          · rintro ((h | ⟨h, h1⟩) | ⟨h, h1⟩)
            · exact Or.inl h
            · exact Or.inr ⟨h, by omega⟩
            · exact Or.inr ⟨h, by omega⟩
          · rintro (h | ⟨h, h1⟩)
            · exact Or.inl (Or.inl h)
            · by_cases hjj : j1 = j
              · exact Or.inr ⟨h, hjj⟩
              · exact Or.inl (Or.inr ⟨h, by omega⟩))
      refine ⟨buf1, h1, h2, ?_⟩
      intro i1 hi1 j1 hj1 r hr
      rw [h3 i1 hi1 j1 hj1 r hr]
      congr 2
      simp only [Bool.or_eq_true, Bool.and_eq_true, beq_iff_eq, decide_eq_true_eq, eq_iff_iff]
      constructor
      · rintro (h | ⟨h, _⟩)
        · omega
        · omega
      · intro h
        by_cases hii : i1 = i
        · exact Or.inr ⟨hii, hj1⟩
        · exact Or.inl (by omega))
  refine ⟨buf, hbuild, hlen, ?_⟩
  intro i hi j hj
  have hc := cell_index_lt hi hj
  have hq : ∀ r < 4, buf[4 * (i + j * width) + r]? =
      some (storedVertex tileIDs tilesetWidth tileSize width i j r) := by
    intro r hr
    rw [hget i hi j hj r hr]
    simp [hi]
  have hE : storedQuad tileIDs tilesetWidth tileSize width i j =
      [storedVertex tileIDs tilesetWidth tileSize width i j 0,
        storedVertex tileIDs tilesetWidth tileSize width i j 1,
        storedVertex tileIDs tilesetWidth tileSize width i j 2,
        storedVertex tileIDs tilesetWidth tileSize width i j 3] := by
    unfold storedVertex storedQuad
    simp only []
    split <;> rfl
  rw [hE]
  exact quadAt_eq buf _ _ _ _ _ (hq 0 (by omega)) (hq 1 (by omega)) (hq 2 (by omega))
    (hq 3 (by omega))

/-- Where every pixel coordinate of a cell fits an unsigned int and is a float, the
stored quad is the expected quad: nothing wraps and every conversion is exact. -/
theorem storedQuad_eq_expectedQuad (tileIDs : List Int) (tilesetWidth : Nat)
    (tileSize : Vector2) (width : Nat) (i j : Nat)
    (hx0 : FloatExact (i * tileSize.x)) (hx1 : FloatExact ((i + 1) * tileSize.x))
    (hy0 : FloatExact (j * tileSize.y)) (hy1 : FloatExact ((j + 1) * tileSize.y))
    (htile : 0 < tileIDs.getD (i + j * width) 0 →
      FloatExact ((tileIDs.getD (i + j * width) 0 - 1).toNat % (tilesetWidth / tileSize.x) *
        tileSize.x) ∧
      FloatExact (((tileIDs.getD (i + j * width) 0 - 1).toNat % (tilesetWidth / tileSize.x) + 1) *
        tileSize.x) ∧
      FloatExact ((tileIDs.getD (i + j * width) 0 - 1).toNat / (tilesetWidth / tileSize.x) *
        tileSize.y) ∧
      FloatExact (((tileIDs.getD (i + j * width) 0 - 1).toNat / (tilesetWidth / tileSize.x) + 1) *
        tileSize.y)) :
    storedQuad tileIDs tilesetWidth tileSize width i j =
      expectedQuad tileIDs (tilesetWidth / tileSize.x) tileSize width i j := by
  unfold storedQuad expectedQuad
  simp only []
  by_cases hneg : tileIDs.getD (i + j * width) 0 - 1 < 0
  · rw [if_pos hneg, if_pos hneg]
  · rw [if_neg hneg, if_neg hneg]
    obtain ⟨t1, t2, t3, t4⟩ := htile (by omega)
    rw [ofUnsigned_exact _ _ hx0 hy0, ofUnsigned_exact _ _ hx1 hy0,
      ofUnsigned_exact _ _ hx1 hy1, ofUnsigned_exact _ _ hx0 hy1,
      ofUnsigned_exact _ _ t1 t3, ofUnsigned_exact _ _ t2 t3,
      ofUnsigned_exact _ _ t2 t4, ofUnsigned_exact _ _ t1 t4]

/-- The layer builder on a full grid whose pixel coordinates all fit an unsigned int and
are floats: the buffer has width × height quads, each the expected one. -/
theorem buildLayer_expected (tileIDs : List Int) (tilesetWidth : Nat) (tileSize : Vector2)
    (width height : Nat)
    (hlen : tileIDs.length = width * height)
    (hcols : 0 < tilesetWidth / tileSize.x)
    (hbuf : width * height * 4 < UINT_MOD)
    (hx : ∀ i ≤ width, FloatExact (i * tileSize.x))
    (hy : ∀ j ≤ height, FloatExact (j * tileSize.y))
    (hids : ∀ id ∈ tileIDs, INT_MIN < id ∧
      (0 < id →
        FloatExact ((id - 1).toNat % (tilesetWidth / tileSize.x) * tileSize.x) ∧
        FloatExact (((id - 1).toNat % (tilesetWidth / tileSize.x) + 1) * tileSize.x) ∧
        FloatExact ((id - 1).toNat / (tilesetWidth / tileSize.x) * tileSize.y) ∧
        FloatExact (((id - 1).toNat / (tilesetWidth / tileSize.x) + 1) * tileSize.y))) :
    ∃ buf, buildLayer tileIDs tilesetWidth tileSize width height = .ok buf ∧
      LayerSpec tileIDs (tilesetWidth / tileSize.x) tileSize width height buf := by
  obtain ⟨buf, hbuild, hblen, hquads⟩ := buildLayer_stored tileIDs tilesetWidth tileSize
    width height
    ⟨by omega, hbuf, fun _ _ id hid => ⟨(hids id (List.getElem?_mem hid)).1, fun _ => hcols⟩⟩
  refine ⟨buf, hbuild, hblen, ?_⟩
  intro i hi j hj
  rw [hquads i hi j hj]
  have hc := cell_index_lt hi hj
  apply storedQuad_eq_expectedQuad tileIDs tilesetWidth tileSize width i j
    (hx i (by omega)) (hx (i + 1) (by omega)) (hy j (by omega)) (hy (j + 1) (by omega))
  have hmem : tileIDs.getD (i + j * width) 0 ∈ tileIDs := by
    rw [List.getD_eq_getElem?_getD, List.getElem?_eq_getElem (by omega)]
    exact List.getElem_mem _
  exact (hids _ hmem).2

/-- The same with the simple bound 2 ^ 24 on the pixel coordinates. -/
theorem buildLayer_expected_small (tileIDs : List Int) (tilesetWidth : Nat)
    (tileSize : Vector2) (width height : Nat)
    (hlen : tileIDs.length = width * height)
    (hcols : 0 < tilesetWidth / tileSize.x)
    (hbuf : width * height * 4 < UINT_MOD)
    (hx : width * tileSize.x ≤ FLOAT_EXACT)
    (hy : height * tileSize.y ≤ FLOAT_EXACT)
    (htw : tilesetWidth ≤ FLOAT_EXACT)
    (hids : ∀ id ∈ tileIDs, INT_MIN < id ∧
      (0 < id →
        ((id - 1).toNat / (tilesetWidth / tileSize.x) + 1) * tileSize.y ≤ FLOAT_EXACT)) :
    ∃ buf, buildLayer tileIDs tilesetWidth tileSize width height = .ok buf ∧
      LayerSpec tileIDs (tilesetWidth / tileSize.x) tileSize width height buf := by
  apply buildLayer_expected tileIDs tilesetWidth tileSize width height hlen hcols hbuf
  · intro i hi
    exact floatExact_of_le (le_trans (Nat.mul_le_mul_right _ hi) hx)
  · intro j hj
    exact floatExact_of_le (le_trans (Nat.mul_le_mul_right _ hj) hy)
  · intro id hid
    refine ⟨(hids id hid).1, fun hpos => ?_⟩
    have hrow := (hids id hid).2 hpos
    generalize (id - 1).toNat = tn at hrow ⊢
    have e5 : tn % (tilesetWidth / tileSize.x) * tileSize.x ≤
        (tn % (tilesetWidth / tileSize.x) + 1) * tileSize.x := Nat.mul_le_mul_right _ (by omega)
    have e6 : (tn % (tilesetWidth / tileSize.x) + 1) * tileSize.x ≤
        tilesetWidth / tileSize.x * tileSize.x :=
      Nat.mul_le_mul_right _ (Nat.mod_lt _ hcols)
    have e7 : tilesetWidth / tileSize.x * tileSize.x ≤ tilesetWidth := Nat.div_mul_le_self _ _
    have e8 : tn / (tilesetWidth / tileSize.x) * tileSize.y ≤
        (tn / (tilesetWidth / tileSize.x) + 1) * tileSize.y := Nat.mul_le_mul_right _ (by omega)
    exact ⟨floatExact_of_le (by omega), floatExact_of_le (by omega),
      floatExact_of_le (by omega), floatExact_of_le hrow⟩

theorem foldlM_range_congr {β : Type} (f g : β → Nat → Except Fault β) (n : Nat)
    (h : ∀ k < n, ∀ b, f b k = g b k) :
    ∀ b0, (List.range n).foldlM f b0 = (List.range n).foldlM g b0 := by
  induction n with
  | zero => intro b0; rfl
  | succ n ih =>
    intro b0
    rw [List.range_succ, List.foldlM_append, List.foldlM_append,
      ih (fun k hk => h k (by omega)) b0]
    congr 1
    funext b
    simp only [List.foldlM_cons, List.foldlM_nil, h n (by omega) b]

theorem loadCell_take (tileIDs : List Int) (tilesetWidth : Nat) (tileSize : Vector2)
    (width : Nat) (n i j : Nat) (buf : List Vertex) (hidx : (i + j * width) % UINT_MOD < n) :
    loadCell (tileIDs.take n) tilesetWidth tileSize width i j buf =
      loadCell tileIDs tilesetWidth tileSize width i j buf := by
  unfold loadCell
  simp only [List.getElem?_take, if_pos hidx]

theorem buildLayer_take (tileIDs : List Int) (tilesetWidth : Nat) (tileSize : Vector2)
    (width height : Nat) :
    buildLayer (tileIDs.take (width * height)) tilesetWidth tileSize width height =
      buildLayer tileIDs tilesetWidth tileSize width height := by
  unfold buildLayer
  apply foldlM_range_congr
  intro i hi b
  apply foldlM_range_congr
  intro j hj b1
  apply loadCell_take
  exact lt_of_le_of_lt (Nat.mod_le _ _) (cell_index_lt hi hj)

theorem floatOfUnsigned_values :
    floatOfUnsigned 16777249 = 16777248 ∧ floatOfUnsigned 16777266 = 16777266 ∧
      floatOfUnsigned 0 = 0 ∧ floatOfUnsigned 17 = 17 := by
  decide

/-- The first vertex of the quad of cell (986897, 0) in a one-row map of 986898 cells of
tile ID 1 with 17-pixel tiles: the stored one and the expected one. -/
theorem stored_vertex_rounded (tileIDs : List Int)
    (h : tileIDs.getD 986897 0 = 1) :
    (storedQuad tileIDs 17 ⟨17, 17⟩ 986898 986897 0).head? =
        some ⟨⟨16777248, 0⟩, ⟨0, 0⟩⟩ ∧
      (expectedQuad tileIDs (17 / 17) ⟨17, 17⟩ 986898 986897 0).head? =
        some ⟨⟨16777249, 0⟩, ⟨0, 0⟩⟩ := by
  obtain ⟨f1, _, f3, _⟩ := floatOfUnsigned_values
  constructor
  · simp only [storedQuad, Nat.zero_mul, Nat.add_zero, h]
    norm_num [Vector2f.ofUnsigned, UINT_MOD, f1, f3]
  · simp only [expectedQuad, Nat.zero_mul, Nat.add_zero, h]
    norm_num

/-- C2 as stated fails where a pixel coordinate is not a float: in a one-row map of
986898 cells of tile ID 1 with 17-pixel tiles (one sheet column), the left edge of cell
(986897, 0) is 986897 · 17 = 16777249, which `load` stores in the vertex as the float
16777248. -/
theorem C2_counterexample_float_rounding :
    (List.replicate 986898 (1 : Int)).length = 986898 * 1 ∧
      0 < 17 / (⟨17, 17⟩ : Vector2).x ∧
      ∃ buf, buildLayer (List.replicate 986898 1) 17 ⟨17, 17⟩ 986898 1 = .ok buf ∧
        (quadAt buf (986897 + 0 * 986898)).head? = some ⟨⟨16777248, 0⟩, ⟨0, 0⟩⟩ ∧
        (expectedQuad (List.replicate 986898 1) (17 / (⟨17, 17⟩ : Vector2).x) ⟨17, 17⟩
          986898 986897 0).head? = some ⟨⟨16777249, 0⟩, ⟨0, 0⟩⟩ ∧
        ¬ LayerSpec (List.replicate 986898 1) (17 / (⟨17, 17⟩ : Vector2).x) ⟨17, 17⟩
          986898 1 buf := by
  have hlen : (List.replicate 986898 (1 : Int)).length = 986898 := List.length_replicate _ _
  have hget : (List.replicate 986898 (1 : Int)).getD 986897 0 = 1 := by
    rw [List.getD_eq_getElem?_getD, List.getElem?_replicate, if_pos (by norm_num)]
    rfl
  obtain ⟨buf, hbuild, _, hquads⟩ := buildLayer_stored (List.replicate 986898 1) 17 ⟨17, 17⟩
    986898 1
    ⟨by rw [hlen], by norm_num [UINT_MOD], by
      intro k _ id hid
      have hmem := List.getElem?_mem hid
      rw [List.mem_replicate] at hmem
      rw [hmem.2]
      norm_num [INT_MIN]⟩
  obtain ⟨hs, he⟩ := stored_vertex_rounded (List.replicate 986898 1) hget
  have hq := hquads 986897 (by norm_num) 0 (by norm_num)
  refine ⟨by rw [hlen], by norm_num, buf, hbuild, by rw [hq]; exact hs, he, ?_⟩
  intro hspec
  have h1 := hspec.2 986897 (by norm_num) 0 (by norm_num)
  rw [hq] at h1
  have h2 := congrArg List.head? h1
  rw [hs, he] at h2
  exact absurd h2 (by decide)

/-- C2 (amended): for a grid of width × height tile IDs (none the smallest int) with at
least one sheet column, when the vertex count width·height·4 is below 2 ^ 32 and every
pixel coordinate the formula names (i·tileW for i ≤ width, j·tileH for j ≤ height, and
for every tile that is not empty the edges column·tileW, (column+1)·tileW, row·tileH,
(row+1)·tileH of its sheet cell) fits an unsigned int and is exactly a float, the layer
builder returns a buffer of width × height quads in which every cell has the expected
quad: default vertices for an empty cell, otherwise the corners of the cell and of
sheet cell (column, row) = (tileNumber mod columns, tileNumber div columns). -/
theorem C2_buildLayer_geometry (tileIDs : List Int) (tilesetWidth : Nat) (tileSize : Vector2)
    (width height : Nat)
    (hlen : tileIDs.length = width * height)
    (hcols : 0 < tilesetWidth / tileSize.x)
    (hbuf : width * height * 4 < UINT_MOD)
    (hx : ∀ i ≤ width, FloatExact (i * tileSize.x))
    (hy : ∀ j ≤ height, FloatExact (j * tileSize.y))
    (hids : ∀ id ∈ tileIDs, INT_MIN < id ∧
      (0 < id →
        FloatExact ((id - 1).toNat % (tilesetWidth / tileSize.x) * tileSize.x) ∧
        FloatExact (((id - 1).toNat % (tilesetWidth / tileSize.x) + 1) * tileSize.x) ∧
        FloatExact ((id - 1).toNat / (tilesetWidth / tileSize.x) * tileSize.y) ∧
        FloatExact (((id - 1).toNat / (tilesetWidth / tileSize.x) + 1) * tileSize.y))) :
    ∃ buf, buildLayer tileIDs tilesetWidth tileSize width height = .ok buf ∧
      LayerSpec tileIDs (tilesetWidth / tileSize.x) tileSize width height buf :=
  buildLayer_expected tileIDs tilesetWidth tileSize width height hlen hcols hbuf hx hy hids

theorem C2_buildLayer_geometry_witness :
    (∃ buf, buildLayer [1, 0, 3, 4] 64 ⟨16, 16⟩ 2 2 = .ok buf ∧
      LayerSpec [1, 0, 3, 4] (64 / (⟨16, 16⟩ : Vector2).x) ⟨16, 16⟩ 2 2 buf) ∧
    buildLayer [1, 0, 3, 4] 64 ⟨16, 16⟩ 2 2 =
      .ok [⟨⟨0, 0⟩, ⟨0, 0⟩⟩, ⟨⟨16, 0⟩, ⟨16, 0⟩⟩, ⟨⟨16, 16⟩, ⟨16, 16⟩⟩, ⟨⟨0, 16⟩, ⟨0, 16⟩⟩,
        {}, {}, {}, {},
        ⟨⟨0, 16⟩, ⟨32, 0⟩⟩, ⟨⟨16, 16⟩, ⟨48, 0⟩⟩, ⟨⟨16, 32⟩, ⟨48, 16⟩⟩, ⟨⟨0, 32⟩, ⟨32, 16⟩⟩,
        ⟨⟨16, 16⟩, ⟨48, 0⟩⟩, ⟨⟨32, 16⟩, ⟨64, 0⟩⟩, ⟨⟨32, 32⟩, ⟨64, 16⟩⟩,
        ⟨⟨16, 32⟩, ⟨48, 16⟩⟩] ∧
    buildLayer [6] 64 ⟨16, 16⟩ 1 1 =
      .ok [⟨⟨0, 0⟩, ⟨1 * 16, 1 * 16⟩⟩, ⟨⟨16, 0⟩, ⟨2 * 16, 1 * 16⟩⟩,
        ⟨⟨16, 16⟩, ⟨2 * 16, 2 * 16⟩⟩, ⟨⟨0, 16⟩, ⟨1 * 16, 2 * 16⟩⟩] :=
  ⟨C2_buildLayer_geometry [1, 0, 3, 4] 64 ⟨16, 16⟩ 2 2 rfl (by decide) (by decide) (by decide)
    (by decide) (by decide), by decide, by decide⟩

/-- C5 as stated fails: a layer whose data holds five tile IDs for a 2 × 2 map is loaded
without any error and its geometry is built from the first four; and for a layer with
only three tile IDs there is no logic error either: the read of tileIDs[3] is outside
the parsed sequence. -/
theorem C5_counterexample_no_length_check :
    parseCSV "1,0,3,4,9" = .ok [1, 0, 3, 4, 9] ∧ [(1 : Int), 0, 3, 4, 9].length ≠ 2 * 2 ∧
      (({} : MapLoader).load (some ⟨some { layers := [⟨some "walls", some (some "1,0,3,4,9")⟩] }⟩)
        (some ⟨64, 16⟩) ⟨16, 16⟩ 2 2).1 = .returned true ∧
      (({} : MapLoader).load (some ⟨some { layers := [⟨some "walls", some (some "1,0,3,4,9")⟩] }⟩)
        (some ⟨64, 16⟩) ⟨16, 16⟩ 2 2).2.m_layers.map List.length = [16] ∧
      buildLayer [1, 0, 3, 4, 9] 64 ⟨16, 16⟩ 2 2 = buildLayer [1, 0, 3, 4] 64 ⟨16, 16⟩ 2 2 ∧
      (({} : MapLoader).load (some ⟨some { layers := [⟨some "walls", some (some "1,0,3")⟩] }⟩)
        (some ⟨64, 16⟩) ⟨16, 16⟩ 2 2).1 = .undefined .outOfRange := by
  decide

/-- C5 (amended): load does not compare the number of tile IDs with width × height.
Whenever a layer has at least width × height tile IDs, the vertex count width·height·4
is below 2 ^ 32, none of the first width × height IDs is the smallest int, and the
sheet has at least one column if one of them is positive, every read
tileIDs[i + j · width] is inside the parsed sequence, the layer is built from the first
width × height IDs alone, and load pushes it with its visibility flag and goes on with
the next layer. -/
theorem C5_load_reads_within_sequence (tileIDs : List Int) (tilesetWidth : Nat)
    (tileSize : Vector2) (width height : Nat)
    (hlen : width * height ≤ tileIDs.length)
    (hbuf : width * height * 4 < UINT_MOD)
    (hids : ∀ k < width * height, ∀ id, tileIDs[k]? = some id →
      INT_MIN < id ∧ (0 < id → 0 < tilesetWidth / tileSize.x)) :
    ∃ buf, buildLayer tileIDs tilesetWidth tileSize width height = .ok buf ∧
      buildLayer (tileIDs.take (width * height)) tilesetWidth tileSize width height = .ok buf ∧
      ∀ (self : MapLoader) (name csvData : String) (rest : List LayerElement),
        self.m_tileset.x = tilesetWidth → parseCSV csvData = .ok tileIDs →
          loadLayers self tileSize width height (⟨some name, some (some csvData)⟩ :: rest) =
            loadLayers
              { self with
                m_layers := self.m_layers ++ [buf]
                m_layerVisibility := self.m_layerVisibility ++ [true] }
              tileSize width height rest := by
  obtain ⟨buf, hbuild, _⟩ := buildLayer_stored tileIDs tilesetWidth tileSize width height
    ⟨hlen, hbuf, hids⟩
  refine ⟨buf, hbuild, by rw [buildLayer_take, hbuild], ?_⟩
  intro self name csvData rest hts hparse
  rw [loadLayers]
  simp only [hparse, hts, hbuild]

theorem C5_load_reads_within_sequence_witness :
    ∃ buf, buildLayer [1, 0, 3, 4, 9] 64 ⟨16, 16⟩ 2 2 = .ok buf ∧
      buildLayer ([1, 0, 3, 4, 9].take (2 * 2)) 64 ⟨16, 16⟩ 2 2 = .ok buf ∧
      ∀ (self : MapLoader) (name csvData : String) (rest : List LayerElement),
        self.m_tileset.x = 64 → parseCSV csvData = .ok [1, 0, 3, 4, 9] →
          loadLayers self ⟨16, 16⟩ 2 2 (⟨some name, some (some csvData)⟩ :: rest) =
            loadLayers
              { self with
                m_layers := self.m_layers ++ [buf]
                m_layerVisibility := self.m_layerVisibility ++ [true] }
              ⟨16, 16⟩ 2 2 rest :=
  C5_load_reads_within_sequence [1, 0, 3, 4, 9] 64 ⟨16, 16⟩ 2 2 (by decide) (by decide)
    (by decide)

/-- C6 on the code: for a document without a root map element and for a layer without
its data block, load does not return false but dereferences a null pointer; for a token
that does not parse in the second layer, std::invalid_argument leaves load, and the
geometry and the visibility flag of the first layer stay in the map. -/
theorem C6_load_failure_not_reported :
    ({} : MapLoader).load (some ⟨none⟩) (some ⟨64, 16⟩) ⟨16, 16⟩ 1 1 =
      (.undefined .nullPointer, { m_tileset := ⟨64, 16⟩ }) ∧
    ({} : MapLoader).load (some ⟨some { layers := [⟨some "floor", none⟩] }⟩)
        (some ⟨64, 16⟩) ⟨16, 16⟩ 1 1 =
      (.undefined .nullPointer, { m_tileset := ⟨64, 16⟩ }) ∧
    ({} : MapLoader).load
        (some ⟨some { layers := [⟨some "floor", some (some "1")⟩,
          ⟨some "walls", some (some "x")⟩] }⟩)
        (some ⟨64, 16⟩) ⟨16, 16⟩ 1 1 =
      (.threw .invalid_argument,
        { m_tileset := ⟨64, 16⟩
          m_layers := [[⟨⟨0, 0⟩, ⟨0, 0⟩⟩, ⟨⟨16, 0⟩, ⟨16, 0⟩⟩, ⟨⟨16, 16⟩, ⟨16, 16⟩⟩,
            ⟨⟨0, 16⟩, ⟨0, 16⟩⟩]]
          m_layerVisibility := [true] }) ∧
    ({} : MapLoader).load none (some ⟨64, 16⟩) ⟨16, 16⟩ 1 1 =
      (.returned false, { m_tileset := ⟨64, 16⟩ }) := by
  decide

/-! ### The class invariant -/

theorem loadLayers_lengths (tileSize : Vector2) (width height : Nat)
    (layers : List LayerElement) : ∀ self : MapLoader,
    self.m_layers.length = self.m_layerVisibility.length →
      (loadLayers self tileSize width height layers).2.m_layers.length =
        (loadLayers self tileSize width height layers).2.m_layerVisibility.length := by
  induction layers with
  | nil => intro self h; exact h
  | cons layer rest ih =>
    intro self h
    unfold loadLayers
    split
    · exact h
    · split
      · exact h
      · exact h
      · split
        · exact h
        · split
          · exact h
          · exact ih _ (by simp [h])

/-- The two parallel vectors have the same length in every state `load` leaves behind,
however the call ends. -/
theorem load_lengths (self : MapLoader) (tmxFile : Option XMLDocument)
    (tilesetImage : Option Vector2) (tileSize : Vector2) (width height : Nat)
    (h : self.m_layers.length = self.m_layerVisibility.length) :
    (self.load tmxFile tilesetImage tileSize width height).2.m_layers.length =
      (self.load tmxFile tilesetImage tileSize width height).2.m_layerVisibility.length := by
  unfold MapLoader.load
  split
  · exact h
  · split
    · exact h
    · split
      · exact h
      · exact loadLayers_lengths _ _ _ _ _ h

theorem wallAnimation_lengths (self : MapLoader)
    (h : self.m_layers.length = self.m_layerVisibility.length) :
    self.wallAnimation.m_layers.length = self.wallAnimation.m_layerVisibility.length := by
  unfold MapLoader.wallAnimation MapLoader.restart MapLoader.toggleLayerVisibility
  split
  · split
    · simpa using h
    · exact h
  · exact h

end PrairieKing
